import Mathlib

/-!
Verification development for the nmock mock HTTP server (src/app/main.go).

The development shallowly embeds the parts of the program that the
specification's claims are about:

* a model of Go JSON values (`Json`) together with an embedding of
  Go's `encoding/json` compact encoder (`encC` / `jsonEncode`: struct and
  map values are emitted with the escaping rules of `encoding/json`,
  maps with keys in sorted order, `json.NewEncoder(...).Encode` appends a
  single newline) and a JSON parser (`parseVal` / `jsonDecode`) used to
  state decodability claims;
* the declaration store (`Config`, `Plugin`, plugin map as an association
  list mirroring Go's `map[string]*Plugin`), the route compiler
  (`SetupRoutes` / `addEndpoint`), gorilla/mux dispatch semantics
  (`dispatch`: routes are tried in registration order, the first route
  whose path template and method both match wins; a path match with a
  method mismatch produces 405, no match at all falls to the installed
  NotFoundHandler), per-route response execution (`execEndpoint`), the
  management API handlers, plugin-directory scanning (`LoadPlugins`),
  plugin persistence (`savePlugin`) and the server lifecycle
  (`startSys` / `serveRequest`), including the fact that `Start` hands
  the router value built at startup to `http.ListenAndServe` while
  `SetupRoutes` rebinds the `router` field to a fresh router.

All definitions are computable and fuel- or structurally recursive so that
concrete scenarios evaluate inside the kernel.
-/

set_option maxHeartbeats 4000000

set_option maxRecDepth 4000

/-- Model of a Go JSON value (`interface\x7b\x7d` holding the result of
`json.Unmarshal`). Numbers are modelled as integers; objects are
association lists which model Go maps, canonically with sorted keys. -/
inductive Json where
  | null : Json
  | bool (b : Bool) : Json
  | num (n : Int) : Json
  | str (s : String) : Json
  | arr (elems : List Json) : Json
  | obj (fields : List (String × Json)) : Json

/-- The character for a single decimal digit. -/
def digitChar (d : Nat) : Char := Char.ofNat (48 + d)

/-- Decimal digits of a natural number, most significant first
(well-founded recursion; used for proofs). -/
def digitList : Nat → List Nat
  | n =>
    if _ : n < 10 then [n]
    else digitList (n / 10) ++ [n % 10]
  decreasing_by exact Nat.div_lt_self (by omega) (by omega)

/-- Fuelled decimal printer (kernel-reducible). -/
def natCharsAux : Nat → Nat → List Char → List Char
  | 0, _, acc => acc
  | fuel + 1, n, acc =>
    if n < 10 then digitChar n :: acc
    else natCharsAux fuel (n / 10) (digitChar (n % 10) :: acc)

/-- Decimal representation of a natural number as characters. -/
def natChars (n : Nat) : List Char := natCharsAux (n + 1) n []

/-- Decimal representation of an integer, embedding Go's rendering of
integral numeric values. -/
def intChars (i : Int) : List Char :=
  if i < 0 then '-' :: natChars i.natAbs else natChars i.natAbs

/-- Lowercase hexadecimal digit, as used by Go's JSON encoder. -/
def hexDig (n : Nat) : Char :=
  if n < 10 then Char.ofNat (48 + n) else Char.ofNat (87 + n)

/-- Escaping of one character inside a JSON string literal, following
Go `encoding/json` with HTML escaping on (the default for
`json.NewEncoder`): quote and backslash get a backslash escape, the
control characters BS, FF, LF, CR, TAB get their short escapes, other
control characters become `\u00XX`, the HTML characters and the Unicode
line separators become `\u` escapes, everything else is emitted
verbatim. -/
def escChar (c : Char) : List Char :=
  if c = '"' ∨ c = '\\' then ['\\', c]
  else if c = Char.ofNat 8 then ['\\', 'b']
  else if c = Char.ofNat 12 then ['\\', 'f']
  else if c = '\n' then ['\\', 'n']
  else if c = '\r' then ['\\', 'r']
  else if c = '\t' then ['\\', 't']
  else if c.toNat < 32 then
    ['\\', 'u', '0', '0', hexDig (c.toNat / 16), hexDig (c.toNat % 16)]
  else if c = '<' ∨ c = '>' ∨ c = '&' then
    ['\\', 'u', '0', '0', hexDig (c.toNat / 16), hexDig (c.toNat % 16)]
  else if c.toNat = 8232 ∨ c.toNat = 8233 then
    ['\\', 'u', '2', '0', '2', hexDig (c.toNat % 16)]
  else [c]

/-- Escaping of a whole string body. -/
def escStr : List Char → List Char
  | [] => []
  | c :: cs => escChar c ++ escStr cs

mutual

/-- Embedding of Go's compact JSON encoder on `Json` values
(object fields are emitted in list order; the canonical representation
of a Go map keeps its keys sorted, matching Go's sorted-key output). -/
def encC : Json → List Char
  | .null => ['n', 'u', 'l', 'l']
  | .bool true => 't' :: "rue".data
  | .bool false => 'f' :: "alse".data
  | .num n => intChars n
  | .str s => '"' :: (escStr s.data ++ ['"'])
  | .arr xs => '[' :: (encCL xs ++ [']'])
  | .obj fs => '\x7b' :: (encCF fs ++ ['\x7d'])

/-- Encoder for array elements (comma separated). -/
def encCL : List Json → List Char
  | [] => []
  | [x] => encC x
  | x :: y :: xs => encC x ++ ',' :: encCL (y :: xs)

/-- Encoder for object fields (comma separated `"key":value` pairs). -/
def encCF : List (String × Json) → List Char
  | [] => []
  | [(k, v)] => '"' :: (escStr k.data ++ '"' :: ':' :: encC v)
  | (k, v) :: g :: fs =>
      ('"' :: (escStr k.data ++ '"' :: ':' :: encC v)) ++ ',' :: encCF (g :: fs)

end

/-- JSON encoding of a value as a string. -/
def jsonEncode (v : Json) : String := String.mk (encC v)

mutual

/-- Syntactic size of a JSON value (parser fuel measure). -/
def jsize : Json → Nat
  | .null => 1
  | .bool _ => 1
  | .num _ => 1
  | .str _ => 1
  | .arr xs => 1 + jsizeL xs
  | .obj fs => 1 + jsizeF fs

/-- Size of a list of JSON values. -/
def jsizeL : List Json → Nat
  | [] => 0
  | x :: xs => 1 + jsize x + jsizeL xs

/-- Size of a list of JSON object fields. -/
def jsizeF : List (String × Json) → Nat
  | [] => 0
  | (_, v) :: fs => 1 + jsize v + jsizeF fs

end

/-- Lexicographic strict ordering of strings by code point, matching
Go's byte-wise ordering of UTF-8 encoded keys. -/
def keyLt : List Char → List Char → Bool
  | [], [] => false
  | [], _ :: _ => true
  | _ :: _, [] => false
  | c :: cs, d :: ds =>
    if c.toNat < d.toNat then true
    else if c.toNat = d.toNat then keyLt cs ds
    else false

/-- Strictly ascending key list. -/
def jsortedKeys : List String → Bool
  | [] => true
  | [_] => true
  | a :: b :: rest => keyLt a.data b.data && jsortedKeys (b :: rest)

mutual

/-- A `Json` value is canonical when every object has strictly sorted
keys; this is exactly the image of Go maps under sorted-key
marshalling. -/
def jcanon : Json → Bool
  | .null => true
  | .bool _ => true
  | .num _ => true
  | .str _ => true
  | .arr xs => jcanonL xs
  | .obj fs => jcanonF fs && jsortedKeys (fs.map (fun f => f.1))

/-- Canonicality for array elements. -/
def jcanonL : List Json → Bool
  | [] => true
  | x :: xs => jcanon x && jcanonL xs

/-- Canonicality for object field values. -/
def jcanonF : List (String × Json) → Bool
  | [] => true
  | (_, v) :: fs => jcanon v && jcanonF fs

end

/-- Numeric value of a decimal digit character, if it is one. -/
def digitVal (c : Char) : Option Nat :=
  if 48 ≤ c.toNat ∧ c.toNat ≤ 57 then some (c.toNat - 48) else none

/-- Split a maximal run of decimal digits off the front of the input. -/
def takeDigits : List Char → List Nat × List Char
  | [] => ([], [])
  | c :: rest =>
    match digitVal c with
    | some d =>
      match takeDigits rest with
      | (ds, r) => (d :: ds, r)
    | none => ([], c :: rest)

/-- Value of a digit list, most significant first. -/
def digitsToNat (ds : List Nat) : Nat := ds.foldl (fun a d => a * 10 + d) 0

/-- Parse a JSON number (integer subset: optional minus sign followed by
a digit run). -/
def parseNum : List Char → Option (Int × List Char)
  | [] => none
  | c :: rest =>
    if c = '-' then
      match takeDigits rest with
      | ([], _) => none
      | (ds, r) => some (-(digitsToNat ds : Int), r)
    else
      match takeDigits (c :: rest) with
      | ([], _) => none
      | (ds, r) => some ((digitsToNat ds : Int), r)

/-- Numeric value of a hexadecimal digit character, if it is one. -/
def parseHexDig (c : Char) : Option Nat :=
  if 48 ≤ c.toNat ∧ c.toNat ≤ 57 then some (c.toNat - 48)
  else if 97 ≤ c.toNat ∧ c.toNat ≤ 102 then some (c.toNat - 87)
  else if 65 ≤ c.toNat ∧ c.toNat ≤ 70 then some (c.toNat - 55)
  else none

/-- Continuation of a `\u` escape: combine four hexadecimal digits
into the escaped character and prepend it to the rest of the parsed
string body. -/
def parseUEsc (h1 h2 h3 h4 : Char) (k : Option (List Char × List Char)) :
    Option (List Char × List Char) :=
  match parseHexDig h1, parseHexDig h2, parseHexDig h3, parseHexDig h4 with
  | some a, some b, some c2, some d =>
    k.map (fun p => (Char.ofNat (((a * 16 + b) * 16 + c2) * 16 + d) :: p.1, p.2))
  | _, _, _, _ => none

/-- Parse the body of a JSON string literal after the opening quote;
returns the decoded characters and the input after the closing quote. -/
def parseStrBody : List Char → Option (List Char × List Char)
  | [] => none
  | c :: rest =>
    if c = '"' then some ([], rest)
    else if c = '\\' then
      match rest with
      | [] => none
      | e :: rest2 =>
        if e = 'u' then
          match rest2 with
          | h1 :: h2 :: h3 :: h4 :: rest3 => parseUEsc h1 h2 h3 h4 (parseStrBody rest3)
          | _ => none
        else if e = '"' ∨ e = '\\' ∨ e = '/' then
          (parseStrBody rest2).map (fun p => (e :: p.1, p.2))
        else if e = 'b' then (parseStrBody rest2).map (fun p => (Char.ofNat 8 :: p.1, p.2))
        else if e = 'f' then (parseStrBody rest2).map (fun p => (Char.ofNat 12 :: p.1, p.2))
        else if e = 'n' then (parseStrBody rest2).map (fun p => ('\n' :: p.1, p.2))
        else if e = 'r' then (parseStrBody rest2).map (fun p => ('\r' :: p.1, p.2))
        else if e = 't' then (parseStrBody rest2).map (fun p => ('\t' :: p.1, p.2))
        else none
    else (parseStrBody rest).map (fun p => (c :: p.1, p.2))

/-- Continuation applied to the result of parsing one array element:
a comma continues the element list, a closing bracket ends it. -/
def elemsCont (vr : Option (Json × List Char))
    (pe : List Char → Option (List Json × List Char)) :
    Option (List Json × List Char) :=
  match vr with
  | none => none
  | some (v, rest) =>
    match rest with
    | ',' :: r2 => (pe r2).map (fun p => (v :: p.1, p.2))
    | ']' :: r2 => some ([v], r2)
    | _ => none

/-- Continuation applied to the result of parsing one field value: a
comma continues the field list, a closing brace ends it. -/
def fieldsCont2 (k : String) (vr : Option (Json × List Char))
    (pf : List Char → Option (List (String × Json) × List Char)) :
    Option (List (String × Json) × List Char) :=
  match vr with
  | none => none
  | some (v, r3) =>
    match r3 with
    | ',' :: r4 => (pf r4).map (fun p => ((k, v) :: p.1, p.2))
    | '\x7d' :: r4 => some ([(k, v)], r4)
    | _ => none

/-- Continuation applied to the result of parsing a field key: a colon
must follow, then the value. -/
def fieldsCont (ks : Option (List Char × List Char))
    (pv : List Char → Option (Json × List Char))
    (pf : List Char → Option (List (String × Json) × List Char)) :
    Option (List (String × Json) × List Char) :=
  match ks with
  | none => none
  | some (kcs, r1) =>
    match r1 with
    | ':' :: r2 => fieldsCont2 (String.mk kcs) (pv r2) pf
    | _ => none

mutual

/-- Fuelled recursive-descent parser for the JSON fragment produced by
the embedded encoder. -/
def parseVal : Nat → List Char → Option (Json × List Char)
  | 0, _ => none
  | fuel + 1, l =>
    match l with
    | [] => none
    | c :: rest =>
      if c = 'n' then
        match rest with
        | 'u' :: 'l' :: 'l' :: r => some (.null, r)
        | _ => none
      else if c = 't' then
        match rest with
        | 'r' :: 'u' :: 'e' :: r => some (.bool true, r)
        | _ => none
      else if c = 'f' then
        match rest with
        | 'a' :: 'l' :: 's' :: 'e' :: r => some (.bool false, r)
        | _ => none
      else if c = '"' then
        (parseStrBody rest).map (fun p => (.str (String.mk p.1), p.2))
      else if c = '[' then
        if rest.head? = some ']' then some (.arr [], rest.tail)
        else (parseElems fuel rest).map (fun p => (.arr p.1, p.2))
      else if c = '\x7b' then
        if rest.head? = some '\x7d' then some (.obj [], rest.tail)
        else (parseFields fuel rest).map (fun p => (.obj p.1, p.2))
      else (parseNum (c :: rest)).map (fun p => (.num p.1, p.2))

/-- Parse one or more comma-separated array elements up to the closing
bracket. -/
def parseElems : Nat → List Char → Option (List Json × List Char)
  | 0, _ => none
  | fuel + 1, l => elemsCont (parseVal fuel l) (parseElems fuel)

/-- Parse one or more comma-separated object fields up to the closing
brace. -/
def parseFields : Nat → List Char → Option (List (String × Json) × List Char)
  | 0, _ => none
  | fuel + 1, l =>
    match l with
    | '"' :: lrest => fieldsCont (parseStrBody lrest) (parseVal fuel) (parseFields fuel)
    | _ => none

end

/-- JSON whitespace. -/
def isWsChar (c : Char) : Bool := c = ' ' ∨ c = '\n' ∨ c = '\t' ∨ c = '\r'

/-- Decode a string as one JSON value, permitting trailing whitespace
(as `json.Unmarshal` and stream decoders do). -/
def jsonDecode (s : String) : Option Json :=
  match parseVal (s.data.length + 1) s.data with
  | some (v, rest) => if rest.all isWsChar then some v else none
  | none => none

/-- ASCII upper-casing of one character (`strings.ToUpper` on the ASCII
method strings used by the program). -/
def upChar (c : Char) : Char :=
  if 97 ≤ c.toNat ∧ c.toNat ≤ 122 then Char.ofNat (c.toNat - 32) else c

/-- ASCII upper-casing of a string. -/
def upStr (s : String) : String := String.mk (s.data.map upChar)

/-- Split a character list at `/` separators (segments of a URL path or
of a mux path template). -/
def splitSeg : List Char → List (List Char)
  | [] => [[]]
  | c :: rest =>
    let r := splitSeg rest
    if c = '/' then [] :: r
    else
      match r with
      | [] => [[c]]
      | s :: ss => (c :: s) :: ss

/-- Whether a path-template segment is a mux variable segment of the
form `\x7bname\x7d` with a nonempty name. -/
def isVarSeg (s : List Char) : Bool :=
  match s with
  | '\x7b' :: rest => 2 ≤ rest.length && rest.getLast? == some '\x7d'
  | _ => false

/-- Variable name of a variable segment. -/
def varName (s : List Char) : List Char :=
  match s with
  | '\x7b' :: rest => rest.dropLast
  | _ => []

/-- Whether one template segment matches one concrete path segment: a
variable segment matches any nonempty segment (mux's default `[^/]+`
pattern), a literal segment matches only itself. -/
def segMatch (pat seg : List Char) : Bool :=
  if isVarSeg pat then !seg.isEmpty else pat == seg

/-- Whether all template segments match all path segments pairwise. -/
def segsMatch : List (List Char) → List (List Char) → Bool
  | [], [] => true
  | p :: ps, s :: ss => segMatch p s && segsMatch ps ss
  | _, _ => false

/-- Embedding of gorilla/mux path-template matching for the templates
this program registers: the template must start with `/` (mux rejects
other templates at registration time, and a route whose registration
errored never matches), and then the template and the request path must
have the same segments, matched by `segMatch`. -/
def pathMatches (pat path : String) : Bool :=
  match pat.data with
  | '/' :: _ => segsMatch (splitSeg pat.data) (splitSeg path.data)
  | _ => false

/-- The mux route variables extracted when a template matched a path. -/
def varsOfL : List (List Char) → List (List Char) → List (String × String)
  | p :: ps, s :: ss =>
    (if isVarSeg p then [(String.mk (varName p), String.mk s)] else []) ++ varsOfL ps ss
  | _, _ => []

/-- Route variables of a matched request, as `mux.Vars`. -/
def varsOf (pat path : String) : List (String × String) :=
  varsOfL (splitSeg pat.data) (splitSeg path.data)

/-- Association-list lookup, modelling Go map indexing. -/
def lookupA {α : Type} : List (String × α) → String → Option α
  | [], _ => none
  | (k2, v) :: rest, k => if k2 = k then some v else lookupA rest k

/-- Association-list insert-or-replace, modelling Go map assignment. -/
def insertAssoc {α : Type} : List (String × α) → String → α → List (String × α)
  | [], k, v => [(k, v)]
  | (k2, v2) :: rest, k, v =>
    if k2 = k then (k, v) :: rest else (k2, v2) :: insertAssoc rest k v

/-- Association-list in-place update of every entry with the given key,
modelling mutation through a Go map's stored pointer. -/
def updateAssoc {α : Type} (l : List (String × α)) (k : String) (v : α) :
    List (String × α) :=
  l.map (fun e => if e.1 = k then (k, v) else e)

/-- Insert into a key-sorted association list (used to model Go's
sorted-key map marshalling). -/
def insertSorted {α : Type} (k : String) (v : α) :
    List (String × α) → List (String × α)
  | [] => [(k, v)]
  | (k2, v2) :: rest =>
    if keyLt k.data k2.data then (k, v) :: (k2, v2) :: rest
    else (k2, v2) :: insertSorted k v rest

/-- Sort an association list by key (Go marshals maps this way). -/
def sortByKey {α : Type} : List (String × α) → List (String × α)
  | [] => []
  | (k, v) :: rest => insertSorted k v (sortByKey rest)

/-- An endpoint declaration, embedding the Go `Endpoint` struct: path
template, HTTP method, status code, optional headers, response payload
(`none` embeds a nil `interface\x7b\x7d`), and delay in milliseconds. -/
structure Endpoint where
  Path : String
  Method : String
  StatusCode : Nat
  Headers : List (String × String) := []
  Response : Option Json := none
  Delay : Nat := 0

/-- A plugin bundle, embedding the Go `Plugin` struct. -/
structure Plugin where
  Name : String
  Description : String := ""
  Enabled : Bool
  Endpoints : List Endpoint

/-- The base server configuration, embedding the Go `Config` struct. -/
structure Config where
  Port : String := "9000"
  PluginsDir : String := "plugins"
  Endpoints : List Endpoint

/-- An inbound HTTP request, reduced to the parts the program
dispatches on. -/
structure Request where
  method : String
  path : String

/-- An HTTP response: status code, headers and body bytes. -/
structure Response where
  status : Nat
  headers : List (String × String) := []
  body : String
  deriving DecidableEq

/-- The handler kind a compiled route carries: a mock endpoint closure
with its source label, the health check, or one of the four management
handlers. -/
inductive RouteKind where
  | endpoint (ep : Endpoint) (source : String)
  | health
  | adminList
  | adminGet
  | adminToggle
  | adminReload

/-- A compiled route of the dispatch table: path template, upper-cased
method, and handler kind. -/
structure Route where
  pattern : String
  method : String
  kind : RouteKind

/-- Embedding of `addEndpoint`: one compiled route per declaration, the
method upper-cased at registration time (`.Methods(strings.ToUpper(...))`). -/
def addEndpoint (ep : Endpoint) (source : String) : Route :=
  { pattern := ep.Path, method := upStr ep.Method, kind := .endpoint ep source }

/-- The four management-API routes, registered first by `SetupRoutes`
via `setupManagementAPI`. -/
def managementRoutes : List Route :=
  [ { pattern := "/_admin/plugins", method := "GET", kind := .adminList },
    { pattern := "/_admin/plugins/\x7bname\x7d", method := "GET", kind := .adminGet },
    { pattern := "/_admin/plugins/\x7bname\x7d/toggle", method := "POST", kind := .adminToggle },
    { pattern := "/_admin/reload", method := "POST", kind := .adminReload } ]

/-- The built-in health-check route, registered after the management
routes. -/
def healthRoute : Route :=
  { pattern := "/health", method := "GET", kind := .health }

/-- Routes contributed by a plugin list: for each plugin in iteration
order, if it is enabled, one route per declared endpoint, labelled with
the plugin's map key. -/
def pluginRoutes : List (String × Plugin) → List Route
  | [] => []
  | (name, p) :: rest =>
    (if p.Enabled then p.Endpoints.map (fun ep => addEndpoint ep name) else [])
      ++ pluginRoutes rest

/-- Embedding of `SetupRoutes`: the compiled dispatch table, in
registration order — management routes, then the health check, then the
base configuration's endpoints labelled "main", then the endpoints of
every enabled plugin. -/
def SetupRoutes (config : Config) (plugins : List (String × Plugin)) : List Route :=
  managementRoutes ++ healthRoute ::
    (config.Endpoints.map (fun ep => addEndpoint ep "main") ++ pluginRoutes plugins)

/-- Whether a route fully matches a request: path template and method
both match (mux `Route.Match` with the path matcher first, then the
method matcher). -/
def fullMatch (r : Route) (req : Request) : Bool :=
  pathMatches r.pattern req.path && r.method == req.method

/-- First route fully matching the request, in table order
(gorilla/mux `Router.Match` iterates registered routes in order and
returns the first match). -/
def findRoute : List Route → Request → Option Route
  | [], _ => none
  | r :: rest, req => if fullMatch r req then some r else findRoute rest req

/-- The outcome of mux dispatch. -/
inductive DispatchResult where
  | matched (r : Route)
  | methodNotAllowed
  | notFound

/-- Embedding of gorilla/mux dispatch: the first fully matching route
wins; otherwise, if some route's path template matched but its method
did not, the built-in 405 handler runs (the program installs no
`MethodNotAllowedHandler`); otherwise the installed `NotFoundHandler`
runs. -/
def dispatch (routes : List Route) (req : Request) : DispatchResult :=
  match findRoute routes req with
  | some r => .matched r
  | none =>
    if routes.any (fun r => pathMatches r.pattern req.path) then .methodNotAllowed
    else .notFound

/-- Embedding of the endpoint handler closure created by `addEndpoint`:
set the declared custom headers, default the content type to JSON if
none of the declared headers set one, use the declared status code with
0 falling back to 200, and write the body — a raw string response is
written verbatim via `fmt.Fprint`, any other non-nil response is passed
to `json.NewEncoder(w).Encode`, which emits its JSON encoding plus one
newline. The declared delay only suspends the handler and does not
affect the response. -/
def execEndpoint (ep : Endpoint) : Response :=
  let hs := ep.Headers
  let hs2 := if (lookupA hs "Content-Type").isNone
    then hs ++ [("Content-Type", "application/json")] else hs
  let status := if ep.StatusCode = 0 then 200 else ep.StatusCode
  let body :=
    match ep.Response with
    | none => ""
    | some (.str s) => s
    | some v => jsonEncode v ++ "\n"
  { status := status, headers := hs2, body := body }

/-- The response of the installed `NotFoundHandler`. -/
def notFoundResponse (path : String) : Response :=
  { status := 404,
    headers := [("Content-Type", "application/json")],
    body := jsonEncode (.obj [("error", .str "Endpoint not found"), ("path", .str path)]) ++ "\n" }

/-- The response of gorilla/mux's built-in `methodNotAllowed` handler,
used when a path matches but no method does and no custom
`MethodNotAllowedHandler` is installed: it only calls
`w.WriteHeader(http.StatusMethodNotAllowed)`, so the body is empty and
no headers are set. -/
def methodNotAllowedResponse : Response :=
  { status := 405, headers := [], body := "" }

/-- The health-check handler's response. -/
def healthResponse : Response :=
  { status := 200, headers := [],
    body := jsonEncode (.obj [("status", .str "ok")]) ++ "\n" }

/-- A plugin not-found response of the management handlers. -/
def pluginNotFoundResponse : Response :=
  { status := 404, headers := [],
    body := jsonEncode (.obj [("error", .str "Plugin not found")]) ++ "\n" }

/-- An entry of the plugins directory: a plugin file that parses, a
file that fails to read or parse, or a subdirectory. -/
inductive PFile where
  | valid (p : Plugin)
  | malformed
  | dir

/-- Whether a string ends with the given suffix. -/
def strEndsWith (s suf : String) : Bool := suf.data.isSuffixOf s.data

/-- `strings.TrimSuffix` on strings. -/
def trimSuffix (s suf : String) : String :=
  if strEndsWith s suf then String.mk (s.data.take (s.data.length - suf.data.length)) else s

/-- The plugin produced by `loadSinglePlugin` for a parsed file: if the
document's name is empty, it is defaulted from the file's base name
with the `.json` suffix trimmed. -/
def effPlugin (fname : String) (p : Plugin) : Plugin :=
  if p.Name = "" then { p with Name := trimSuffix fname ".json" } else p

/-- One step of the `LoadPlugins` directory scan: directories and
non-`.json` files are skipped, a malformed `.json` file is logged and
skipped, a parsed one is stored in the plugin map under its effective
name. -/
def loadStep (acc : List (String × Plugin)) (entry : String × PFile) :
    List (String × Plugin) :=
  if strEndsWith entry.1 ".json" then
    match entry.2 with
    | .valid p =>
      let q := effPlugin entry.1 p
      insertAssoc acc q.Name q
    | .malformed => acc
    | .dir => acc
  else acc

/-- Embedding of `LoadPlugins`: the plugin map is cleared and, if the
plugins directory exists, repopulated from its entries in listing
order; the scan reports success both when the directory is missing and
after skipping malformed files. -/
def LoadPlugins (files : Option (List (String × PFile))) :
    List (String × Plugin) × Bool :=
  match files with
  | none => ([], true)
  | some l => (l.foldl loadStep [], true)

/-- The server's mutable store: base configuration, plugin map, and the
contents of the plugins directory on disk (`none` when the directory
does not exist). -/
structure Store where
  config : Config
  plugins : List (String × Plugin)
  files : Option (List (String × PFile))

/-- Embedding of `savePlugin`: marshal the plugin and write it to
`<pluginsDir>/<name>.json`, where `name` is the plugin-map key passed
by the toggle handler; a failing write (missing directory) is ignored
by the caller. -/
def savePlugin (files : Option (List (String × PFile))) (name : String)
    (p : Plugin) : Option (List (String × PFile)) :=
  match files with
  | none => none
  | some l => some (insertAssoc l (name ++ ".json") (.valid p))

/-- The whole process state: the store, the `router` field as last
assigned by `SetupRoutes`, and the router value that `Start` handed to
`http.ListenAndServe` — the table actually consulted for inbound
requests. -/
structure Sys where
  store : Store
  routerField : List Route
  served : List Route

/-- Embedding of `Start`: load configuration and plugins, compile the
routes, and pass the current `router` value to `http.ListenAndServe`. -/
def startSys (config : Config) (files : Option (List (String × PFile))) : Sys :=
  let plugins := (LoadPlugins files).1
  let table := SetupRoutes config plugins
  { store := { config := config, plugins := plugins, files := files },
    routerField := table, served := table }

/-- A system in which the served table is the table compiled from the
current store (the state right after `Start`'s initial compile). -/
def mkSys (config : Config) (plugins : List (String × Plugin))
    (files : Option (List (String × PFile))) : Sys :=
  { store := { config := config, plugins := plugins, files := files },
    routerField := SetupRoutes config plugins,
    served := SetupRoutes config plugins }

/-- JSON marshalling of an endpoint declaration, per the Go struct tags
(fields in struct order, `headers` and `delay` omitted when empty, maps
with sorted keys). -/
def endpointToJson (e : Endpoint) : Json :=
  .obj
    ([("path", .str e.Path), ("method", .str e.Method),
      ("status_code", .num (e.StatusCode : Int))]
      ++ (match e.Headers with
          | [] => []
          | hs => [("headers", .obj (sortByKey (hs.map (fun h => (h.1, .str h.2)))))])
      ++ [("response", (e.Response).getD .null)]
      ++ (if e.Delay = 0 then [] else [("delay", .num (e.Delay : Int))]))

/-- JSON marshalling of a plugin, per the Go struct tags. -/
def pluginToJson (p : Plugin) : Json :=
  .obj
    ([("name", .str p.Name)]
      ++ (if p.Description = "" then [] else [("description", .str p.Description)])
      ++ [("enabled", .bool p.Enabled),
          ("endpoints", .arr (p.Endpoints.map endpointToJson))])

/-- The `GET /_admin/plugins` handler: the full plugin map, marshalled
with sorted keys. -/
def adminListResponse (st : Store) : Response :=
  { status := 200, headers := [("Content-Type", "application/json")],
    body := jsonEncode (.obj (sortByKey (st.plugins.map (fun e => (e.1, pluginToJson e.2))))) ++ "\n" }

/-- The `GET /_admin/plugins/\x7bname\x7d` handler. -/
def adminGetResponse (st : Store) (name : String) : Response :=
  match lookupA st.plugins name with
  | none => pluginNotFoundResponse
  | some p =>
    { status := 200, headers := [("Content-Type", "application/json")],
      body := jsonEncode (pluginToJson p) ++ "\n" }

/-- The `POST /_admin/plugins/\x7bname\x7d/toggle` handler: unknown
names get 404 and change nothing; otherwise the plugin's enabled flag
is flipped in place, the updated plugin is saved to
`<pluginsDir>/<name>.json`, `SetupRoutes` rebuilds the `router` field
(the served router is untouched), and a confirmation object is
returned. -/
def adminToggleHandler (sys : Sys) (name : String) : Response × Sys :=
  match lookupA sys.store.plugins name with
  | none => (pluginNotFoundResponse, sys)
  | some p =>
    let p2 := { p with Enabled := !p.Enabled }
    let plugins2 := updateAssoc sys.store.plugins name p2
    let files2 := savePlugin sys.store.files name p2
    let store2 := { sys.store with plugins := plugins2, files := files2 }
    let msg := "Plugin " ++ name ++ " " ++ (if p2.Enabled then "enabled" else "disabled")
    ({ status := 200, headers := [("Content-Type", "application/json")],
       body := jsonEncode (.obj [("enabled", .bool p2.Enabled), ("message", .str msg)]) ++ "\n" },
     { store := store2,
       routerField := SetupRoutes store2.config plugins2,
       served := sys.served })

/-- The `POST /_admin/reload` handler: rescan the plugins directory,
rebuild the `router` field, and report success (the scan only fails if
the existing directory cannot be listed, which the file-system model
does not produce). -/
def adminReloadHandler (sys : Sys) : Response × Sys :=
  match LoadPlugins sys.store.files with
  | (plugins2, true) =>
    let store2 := { sys.store with plugins := plugins2 }
    ({ status := 200, headers := [("Content-Type", "application/json")],
       body := jsonEncode (.obj [("message", .str "Plugins reloaded successfully")]) ++ "\n" },
     { store := store2,
       routerField := SetupRoutes store2.config plugins2,
       served := sys.served })
  | (_, false) =>
    ({ status := 500, headers := [], body := "" }, sys)

/-- The watcher's reaction to a plugin-file change event: reload the
plugin map from disk and rebuild the `router` field; the served router
is untouched. -/
def watchPluginEvent (sys : Sys) : Sys :=
  let plugins2 := (LoadPlugins sys.store.files).1
  let store2 := { sys.store with plugins := plugins2 }
  { store := store2,
    routerField := SetupRoutes store2.config plugins2,
    served := sys.served }

/-- Serving one inbound request: dispatch against the table that
`ListenAndServe` holds, then run the selected handler against the
current store. -/
def serveRequest (sys : Sys) (req : Request) : Response × Sys :=
  match dispatch sys.served req with
  | .notFound => (notFoundResponse req.path, sys)
  | .methodNotAllowed => (methodNotAllowedResponse, sys)
  | .matched r =>
    match r.kind with
    | .endpoint ep _ => (execEndpoint ep, sys)
    | .health => (healthResponse, sys)
    | .adminList => (adminListResponse sys.store, sys)
    | .adminGet =>
      (adminGetResponse sys.store ((lookupA (varsOf r.pattern req.path) "name").getD ""), sys)
    | .adminToggle =>
      adminToggleHandler sys ((lookupA (varsOf r.pattern req.path) "name").getD "")
    | .adminReload => adminReloadHandler sys

/-- The first input character is not a decimal digit (or the input is
empty); a greedy number parse stops exactly here. -/
def noDigitHead : List Char → Bool
  | [] => true
  | c :: _ => (digitVal c).isNone

/-- The source label of a compiled route, when it came from a declared
endpoint. -/
def routeSource (r : Route) : Option String :=
  match r.kind with
  | .endpoint _ s => some s
  | _ => none

/-- Whether a directory entry is one that `LoadPlugins` skips with a
warning: a `.json` file that fails to read or parse. -/
def skippedEntry (e : String × PFile) : Bool :=
  strEndsWith e.1 ".json" &&
    (match e.2 with
     | .malformed => true
     | _ => false)

/-- Effective names of the well-formed `.json` plugin files of a
directory listing, in order. -/
def validJsonNames : List (String × PFile) → List String
  | [] => []
  | (fn, .valid p) :: rest =>
    (if strEndsWith fn ".json" then [(effPlugin fn p).Name] else []) ++ validJsonNames rest
  | _ :: rest => validJsonNames rest

/-- The plugin a single directory entry would store under the given
map key, if any. -/
def contrib (k : String) (e : String × PFile) : Option Plugin :=
  match e with
  | (fn, .valid p) =>
    if strEndsWith fn ".json" ∧ (effPlugin fn p).Name = k then some (effPlugin fn p) else none
  | _ => none

/-- The last contribution to the given map key over a directory
listing (later files overwrite earlier ones). -/
def lastContrib (k : String) : List (String × PFile) → Option Plugin
  | [] => none
  | e :: rest => (lastContrib k rest).or (contrib k e)

/-- Witness endpoint for the status-code claim. -/
def c4Ep : Endpoint := { Path := "/api/test", Method := "get", StatusCode := 207 }

/-- Witness configuration for the status-code claim. -/
def c4Config : Config := { Endpoints := [c4Ep] }

/-- Base declaration for the shadowing counterexample. -/
def c2BaseEp : Endpoint := { Path := "/x", Method := "GET", StatusCode := 200, Response := some (.str "A") }

/-- Plugin declaration with the same path and method but a different
response. -/
def c2PluginEp : Endpoint := { Path := "/x", Method := "GET", StatusCode := 200, Response := some (.str "B") }

/-- Witness configuration: the base config and an enabled plugin both
declare `GET /x`. -/
def c2Config : Config := { Endpoints := [c2BaseEp] }

/-- The plugin map for the shadowing counterexample. -/
def c2Plugins : List (String × Plugin) :=
  [("p", { Name := "p", Enabled := true, Endpoints := [c2PluginEp] })]

/-- Witness configuration with no declared endpoints. -/
def c3Config : Config := { Endpoints := [] }

/-- Witness endpoints for C5: one raw-string response, one structured
response. -/
def c5StrEp : Endpoint := { Path := "/s", Method := "GET", StatusCode := 200, Response := some (.str "He said \"hi\" & left") }

/-- Structured-response witness endpoint for C5. -/
def c5ObjEp : Endpoint := { Path := "/o", Method := "GET", StatusCode := 200, Response := some (.obj [("a", .num 1), ("b", .arr [.bool true, .null])]) }

/-- Witness configuration for C5. -/
def c5Config : Config := { Endpoints := [c5StrEp, c5ObjEp] }

/-- The in-place enablement flip the toggle handler performs. -/
def togglePlugin (p : Plugin) : Plugin := { p with Enabled := !p.Enabled }

/-- Witness plugin for the toggle-pair claim. -/
def c6Plugin : Plugin :=
  { Name := "p1", Enabled := true,
    Endpoints := [{ Path := "/p", Method := "GET", StatusCode := 200 }] }

/-- Witness system for the toggle-pair claim. -/
def c6Sys : Sys := mkSys { Endpoints := [] } [("p1", c6Plugin)] none

/-- Witness plugin file contents for C7. -/
def c7A : Plugin := { Name := "", Enabled := true, Endpoints := [] }

/-- Second witness plugin for C7. -/
def c7B : Plugin := { Name := "pb", Enabled := false, Endpoints := [] }

/-- Witness directory listing for C7: two well-formed plugin files, a
malformed one between them, a non-JSON file and a subdirectory. -/
def c7Files : List (String × PFile) :=
  [("a.json", .valid c7A), ("bad.json", .malformed), ("b.json", .valid c7B),
   ("note.txt", .valid c7A), ("sub.json", .dir)]

/-- Reading a file from the modelled plugins directory. -/
def readFile (files : Option (List (String × PFile))) (fname : String) : Option PFile :=
  match files with
  | none => none
  | some l => lookupA l fname

/-- The plugin of the write-back counterexample: loaded from
`foo.json` but named `bar`. -/
def c8Plugin : Plugin := { Name := "bar", Enabled := true, Endpoints := [] }

/-- System started with the single plugin file `foo.json` whose
document carries the name `bar`. -/
def c8Sys : Sys := startSys { Endpoints := [] } (some [("foo.json", .valid c8Plugin)])

/-- A base endpoint for the C9 witness scenario. -/
def c9Ep : Endpoint :=
  { Path := "/x", Method := "GET", StatusCode := 200, Headers := [],
    Response := some (.str "hi"), Delay := 0 }

/-- A server started with one base endpoint and a missing plugins
directory. -/
def c9Sys : Sys := startSys { Endpoints := [c9Ep] } none

/-- The plugin endpoint of the stale-table scenario. -/
def c1Endpoint : Endpoint :=
  { Path := "/plugin/test", Method := "POST", StatusCode := 201,
    Response := some (.obj [("message", .str "plugin")]) }

/-- An enabled plugin contributing one route. -/
def c1Plugin : Plugin :=
  { Name := "p1", Enabled := true, Endpoints := [c1Endpoint] }

/-- Plugins directory holding just that plugin. -/
def c1Files : Option (List (String × PFile)) := some [("p1.json", .valid c1Plugin)]

/-- The server right after `Start`: empty base configuration, one
enabled plugin. -/
def c1Sys0 : Sys := startSys { Endpoints := [] } c1Files

/-- The server state after serving `POST /_admin/plugins/p1/toggle`. -/
def c1Sys1 : Sys := (serveRequest c1Sys0 { method := "POST", path := "/_admin/plugins/p1/toggle" }).2

theorem toNat_ofNat_lt (n : Nat) (h : n < 55296) : (Char.ofNat n).toNat = n := by
  rw [Char.ofNat, dif_pos (Or.inl h)]
  rfl

theorem char_ne_of_toNat_ne {a b : Char} (h : a.toNat ≠ b.toNat) : a ≠ b :=
  fun hab => h (congrArg Char.toNat hab)

theorem toNat_digitChar {d : Nat} (h : d < 10) : (digitChar d).toNat = 48 + d := by
  unfold digitChar
  exact toNat_ofNat_lt _ (by omega)

theorem digitVal_digitChar {d : Nat} (h : d < 10) : digitVal (digitChar d) = some d := by
  unfold digitVal
  rw [if_pos]
  · rw [toNat_digitChar h]
    congr 1
    omega
  · rw [toNat_digitChar h]
    omega

theorem digitList_all_lt (n : Nat) : ∀ d ∈ digitList n, d < 10 := by
  induction n using Nat.strong_induction_on with
  | _ n ih =>
    rw [digitList]
    split
    · intro d hd
      simp only [List.mem_singleton] at hd
      omega
    · intro d hd
      rw [List.mem_append] at hd
      rcases hd with hd | hd
      · exact ih (n / 10) (Nat.div_lt_self (by omega) (by omega)) d hd
      · simp only [List.mem_singleton] at hd
        omega

theorem digitList_ne_nil (n : Nat) : digitList n ≠ [] := by
  rw [digitList]
  split
  · simp
  · simp

theorem natCharsAux_eq (fuel : Nat) : ∀ n acc, n < fuel →
    natCharsAux fuel n acc = (digitList n).map digitChar ++ acc := by
  induction fuel with
  | zero => omega
  | succ fuel ih =>
    intro n acc hn
    rw [natCharsAux, digitList]
    split
    · simp
    · rw [ih (n / 10) _ (by
        have := Nat.div_lt_self (show 0 < n by omega) (show 1 < 10 by omega)
        omega)]
      simp

theorem natChars_eq (n : Nat) : natChars n = (digitList n).map digitChar := by
  rw [natChars, natCharsAux_eq (n + 1) n [] (by omega)]
  simp

theorem digitsToNat_digitList (n : Nat) : digitsToNat (digitList n) = n := by
  induction n using Nat.strong_induction_on with
  | _ n ih =>
    rw [digitList]
    split
    · simp [digitsToNat]
    · rw [digitsToNat, List.foldl_append]
      have h10 : ¬ n < 10 := by assumption
      rw [show List.foldl (fun a d => a * 10 + d) 0 (digitList (n / 10))
          = digitsToNat (digitList (n / 10)) from rfl]
      rw [ih (n / 10) (Nat.div_lt_self (by omega) (by omega))]
      simp only [List.foldl_cons, List.foldl_nil]
      omega

theorem takeDigits_of_noDigitHead {rest : List Char} (h : noDigitHead rest = true) :
    takeDigits rest = ([], rest) := by
  cases rest with
  | nil => rfl
  | cons c cs =>
    rw [takeDigits]
    have : digitVal c = none := by
      rw [noDigitHead] at h
      exact Option.isNone_iff_eq_none.mp h
    rw [this]

theorem takeDigits_map (ds : List Nat) (rest : List Char)
    (hds : ∀ d ∈ ds, d < 10) (hrest : noDigitHead rest = true) :
    takeDigits (ds.map digitChar ++ rest) = (ds, rest) := by
  induction ds with
  | nil => simpa using takeDigits_of_noDigitHead hrest
  | cons d ds ih =>
    simp only [List.map_cons, List.cons_append]
    rw [takeDigits, digitVal_digitChar (hds d (by simp)),
      ih (fun d hd => hds d (by simp [hd]))]

theorem natChars_head (n : Nat) :
    ∃ d t, d < 10 ∧ natChars n = digitChar d :: t := by
  rw [natChars_eq]
  rcases h : digitList n with _ | ⟨d, ds⟩
  · exact absurd h (digitList_ne_nil n)
  · exact ⟨d, ds.map digitChar, digitList_all_lt n d (by simp [h]), by simp⟩

theorem parseNum_natChars (n : Nat) (rest : List Char)
    (hrest : noDigitHead rest = true) :
    parseNum (natChars n ++ rest) = some ((n : Int), rest) := by
  obtain ⟨d, t, hd, hnat⟩ := natChars_head n
  rw [hnat]
  simp only [List.cons_append]
  rw [parseNum]
  rw [if_neg (char_ne_of_toNat_ne (by
    rw [toNat_digitChar hd]
    show 48 + d ≠ 45
    omega))]
  rw [← List.cons_append, ← hnat, natChars_eq,
    takeDigits_map _ _ (digitList_all_lt n) hrest]
  rcases h2 : digitList n with _ | ⟨e, es⟩
  · exact absurd h2 (digitList_ne_nil n)
  · rw [← h2]
    have : digitsToNat (digitList n) = n := digitsToNat_digitList n
    rw [h2] at this ⊢
    simp [this]

theorem parseNum_intChars (i : Int) (rest : List Char)
    (hrest : noDigitHead rest = true) :
    parseNum (intChars i ++ rest) = some (i, rest) := by
  rw [intChars]
  by_cases hi : i < 0
  · rw [if_pos hi]
    simp only [List.cons_append]
    rw [parseNum, if_pos rfl]
    rw [natChars_eq, takeDigits_map _ _ (digitList_all_lt i.natAbs) hrest]
    rcases h2 : digitList i.natAbs with _ | ⟨e, es⟩
    · exact absurd h2 (digitList_ne_nil i.natAbs)
    · rw [← h2]
      have hv : digitsToNat (digitList i.natAbs) = i.natAbs := digitsToNat_digitList i.natAbs
      rw [h2] at hv ⊢
      simp only [takeDigits_map, hv]
      have : -(i.natAbs : Int) = i := by omega
      simp [this]
      rw [abs_of_neg hi]
      ring
  · rw [if_neg hi]
    rw [parseNum_natChars _ _ hrest]
    have : ((i.natAbs : Int)) = i := by omega
    simp [this]

theorem intChars_head (i : Int) :
    ∃ c t, intChars i = c :: t ∧ (c.toNat = 45 ∨ (48 ≤ c.toNat ∧ c.toNat ≤ 57)) := by
  rw [intChars]
  by_cases hi : i < 0
  · rw [if_pos hi]
    exact ⟨'-', _, rfl, Or.inl rfl⟩
  · rw [if_neg hi]
    obtain ⟨d, t, hd, hnat⟩ := natChars_head i.natAbs
    refine ⟨digitChar d, t, hnat, Or.inr ?_⟩
    rw [toNat_digitChar hd]
    omega

theorem parseHexDig_hexDig {m : Nat} (h : m < 16) : parseHexDig (hexDig m) = some m := by
  rw [hexDig, parseHexDig]
  by_cases h10 : m < 10
  · rw [if_pos h10]
    rw [toNat_ofNat_lt _ (by omega)]
    rw [if_pos (by omega)]
    congr 1
    omega
  · rw [if_neg h10]
    rw [toNat_ofNat_lt _ (by omega)]
    rw [if_neg (by omega), if_pos (by omega)]
    congr 1
    omega

theorem parseUEsc_eq (h1 h2 h3 h4 : Char) (k : Option (List Char × List Char))
    (a b c2 d : Nat) (e1 : parseHexDig h1 = some a) (e2 : parseHexDig h2 = some b)
    (e3 : parseHexDig h3 = some c2) (e4 : parseHexDig h4 = some d) :
    parseUEsc h1 h2 h3 h4 k
      = k.map (fun p => (Char.ofNat (((a * 16 + b) * 16 + c2) * 16 + d) :: p.1, p.2)) := by
  rw [parseUEsc.eq_def, e1, e2, e3, e4]

theorem parseStrBody_cons (c : Char) (rest : List Char) :
    parseStrBody (c :: rest)
      = (if c = '"' then some ([], rest)
         else if c = '\\' then
           match rest with
           | [] => none
           | e :: rest2 =>
             if e = 'u' then
               match rest2 with
               | h1 :: h2 :: h3 :: h4 :: rest3 => parseUEsc h1 h2 h3 h4 (parseStrBody rest3)
               | _ => none
             else if e = '"' ∨ e = '\\' ∨ e = '/' then
               (parseStrBody rest2).map (fun p => (e :: p.1, p.2))
             else if e = 'b' then (parseStrBody rest2).map (fun p => (Char.ofNat 8 :: p.1, p.2))
             else if e = 'f' then (parseStrBody rest2).map (fun p => (Char.ofNat 12 :: p.1, p.2))
             else if e = 'n' then (parseStrBody rest2).map (fun p => ('\n' :: p.1, p.2))
             else if e = 'r' then (parseStrBody rest2).map (fun p => ('\r' :: p.1, p.2))
             else if e = 't' then (parseStrBody rest2).map (fun p => ('\t' :: p.1, p.2))
             else none
         else (parseStrBody rest).map (fun p => (c :: p.1, p.2))) := by
  rw [parseStrBody.eq_def]

theorem parseStrBody_escChar (c : Char) (l : List Char) :
    parseStrBody (escChar c ++ l) = (parseStrBody l).map (fun p => (c :: p.1, p.2)) := by
  rw [escChar]
  by_cases h1 : c = '"' ∨ c = '\\'
  · rw [if_pos h1]
    rcases h1 with h | h <;> subst h <;> rw [parseStrBody.eq_def] <;> rfl
  · rw [if_neg h1]
    by_cases h2 : c = Char.ofNat 8
    · rw [if_pos h2]
      subst h2
      rw [parseStrBody.eq_def]
      rfl
    rw [if_neg h2]
    by_cases h3 : c = Char.ofNat 12
    · rw [if_pos h3]
      subst h3
      rw [parseStrBody.eq_def]
      rfl
    rw [if_neg h3]
    by_cases h4 : c = '\n'
    · rw [if_pos h4]
      subst h4
      rw [parseStrBody.eq_def]
      rfl
    rw [if_neg h4]
    by_cases h5 : c = '\r'
    · rw [if_pos h5]
      subst h5
      rw [parseStrBody.eq_def]
      rfl
    rw [if_neg h5]
    by_cases h6 : c = '\t'
    · rw [if_pos h6]
      subst h6
      rw [parseStrBody.eq_def]
      rfl
    rw [if_neg h6]
    by_cases h7 : c.toNat < 32
    · rw [if_pos h7]
      simp only [List.cons_append, List.nil_append]
      show parseUEsc '0' '0' (hexDig (c.toNat / 16)) (hexDig (c.toNat % 16)) (parseStrBody l)
        = (parseStrBody l).map (fun p => (c :: p.1, p.2))
      rw [parseUEsc_eq '0' '0' (hexDig (c.toNat / 16)) (hexDig (c.toNat % 16)) _
        0 0 (c.toNat / 16) (c.toNat % 16) rfl rfl
        (parseHexDig_hexDig (by omega)) (parseHexDig_hexDig (by omega))]
      have harith : ((0 * 16 + 0) * 16 + c.toNat / 16) * 16 + c.toNat % 16 = c.toNat := by
        omega
      rw [harith, Char.ofNat_toNat]
    rw [if_neg h7]
    by_cases h8 : c = '<' ∨ c = '>' ∨ c = '&'
    · rw [if_pos h8]
      simp only [List.cons_append, List.nil_append]
      show parseUEsc '0' '0' (hexDig (c.toNat / 16)) (hexDig (c.toNat % 16)) (parseStrBody l)
        = (parseStrBody l).map (fun p => (c :: p.1, p.2))
      have hlt : c.toNat < 256 := by
        rcases h8 with h | h | h <;> subst h <;> decide
      rw [parseUEsc_eq '0' '0' (hexDig (c.toNat / 16)) (hexDig (c.toNat % 16)) _
        0 0 (c.toNat / 16) (c.toNat % 16) rfl rfl
        (parseHexDig_hexDig (by omega)) (parseHexDig_hexDig (by omega))]
      have harith : ((0 * 16 + 0) * 16 + c.toNat / 16) * 16 + c.toNat % 16 = c.toNat := by
        omega
      rw [harith, Char.ofNat_toNat]
    rw [if_neg h8]
    by_cases h9 : c.toNat = 8232 ∨ c.toNat = 8233
    · rw [if_pos h9]
      simp only [List.cons_append, List.nil_append]
      show parseUEsc '2' '0' '2' (hexDig (c.toNat % 16)) (parseStrBody l)
        = (parseStrBody l).map (fun p => (c :: p.1, p.2))
      rw [parseUEsc_eq '2' '0' '2' (hexDig (c.toNat % 16)) _
        2 0 2 (c.toNat % 16) rfl rfl rfl
        (parseHexDig_hexDig (by omega))]
      have harith : ((2 * 16 + 0) * 16 + 2) * 16 + c.toNat % 16 = c.toNat := by
        omega
      rw [harith, Char.ofNat_toNat]
    rw [if_neg h9]
    simp only [List.cons_append, List.nil_append, List.singleton_append]
    rw [parseStrBody_cons]
    rw [if_neg (fun h => h1 (Or.inl h)), if_neg (fun h => h1 (Or.inr h))]

theorem parseStrBody_escStr (cs : List Char) (rest : List Char) :
    parseStrBody (escStr cs ++ '"' :: rest) = some (cs, rest) := by
  induction cs with
  | nil =>
    rw [escStr]
    simp only [List.nil_append]
    rw [parseStrBody_cons, if_pos rfl]
  | cons c cs ih =>
    rw [escStr]
    rw [List.append_assoc]
    rw [parseStrBody_escChar, ih]
    rfl

theorem jsize_pos (v : Json) : 1 ≤ jsize v := by
  cases v <;> simp [jsize]

theorem encCL_cons (x : Json) (xs : List Json) :
    ∃ t, encCL (x :: xs) = encC x ++ t := by
  cases xs with
  | nil => exact ⟨[], by rw [encCL]; simp⟩
  | cons y ys => exact ⟨',' :: encCL (y :: ys), by rw [encCL]⟩

theorem encC_head (v : Json) :
    ∃ c t, encC v = c :: t ∧ c.toNat ≠ 93 ∧ c.toNat ≠ 125 := by
  cases v with
  | null => exact ⟨'n', _, rfl, by decide, by decide⟩
  | bool b =>
    cases b with
    | true => exact ⟨'t', _, rfl, by decide, by decide⟩
    | false => exact ⟨'f', _, rfl, by decide, by decide⟩
  | num n =>
    obtain ⟨c, t, h, hc⟩ := intChars_head n
    rw [show encC (.num n) = intChars n from rfl]
    exact ⟨c, t, h, by omega, by omega⟩
  | str s => exact ⟨'"', _, rfl, by decide, by decide⟩
  | arr xs => exact ⟨'[', _, rfl, by decide, by decide⟩
  | obj fs => exact ⟨'\x7b', _, rfl, by decide, by decide⟩

theorem parseVal_cons (fuel : Nat) (c : Char) (rest : List Char) :
    parseVal (fuel + 1) (c :: rest)
      = (if c = 'n' then
          match rest with
          | 'u' :: 'l' :: 'l' :: r => some (.null, r)
          | _ => none
        else if c = 't' then
          match rest with
          | 'r' :: 'u' :: 'e' :: r => some (.bool true, r)
          | _ => none
        else if c = 'f' then
          match rest with
          | 'a' :: 'l' :: 's' :: 'e' :: r => some (.bool false, r)
          | _ => none
        else if c = '"' then
          (parseStrBody rest).map (fun p => (.str (String.mk p.1), p.2))
        else if c = '[' then
          if rest.head? = some ']' then some (.arr [], rest.tail)
          else (parseElems fuel rest).map (fun p => (.arr p.1, p.2))
        else if c = '\x7b' then
          if rest.head? = some '\x7d' then some (.obj [], rest.tail)
          else (parseFields fuel rest).map (fun p => (.obj p.1, p.2))
        else (parseNum (c :: rest)).map (fun p => (.num p.1, p.2))) := by
  rw [parseVal.eq_def]

theorem parseElems_succ (fuel : Nat) (l : List Char) :
    parseElems (fuel + 1) l = elemsCont (parseVal fuel l) (parseElems fuel) := by
  rw [parseElems.eq_def]

theorem parseFields_quote (fuel : Nat) (lrest : List Char) :
    parseFields (fuel + 1) ('"' :: lrest)
      = fieldsCont (parseStrBody lrest) (parseVal fuel) (parseFields fuel) := by
  rw [parseFields.eq_def]
  rfl

theorem encCF_cons (f : String × Json) (fs : List (String × Json)) :
    ∃ t, encCF (f :: fs) = '"' :: t := by
  rcases f with ⟨k, v⟩
  cases fs with
  | nil => exact ⟨_, rfl⟩
  | cons g gs => exact ⟨_, rfl⟩

theorem parse_enc (fuel : Nat) :
    (∀ v rest, jsize v ≤ fuel → noDigitHead rest = true →
      parseVal fuel (encC v ++ rest) = some (v, rest))
  ∧ (∀ x xs rest, jsizeL (x :: xs) ≤ fuel → noDigitHead rest = true →
      parseElems fuel (encCL (x :: xs) ++ ']' :: rest) = some (x :: xs, rest))
  ∧ (∀ k v fs rest, jsizeF ((k, v) :: fs) ≤ fuel → noDigitHead rest = true →
      parseFields fuel (encCF ((k, v) :: fs) ++ '\x7d' :: rest) = some ((k, v) :: fs, rest)) := by
  induction fuel with
  | zero =>
    refine ⟨?_, ?_, ?_⟩
    · intro v rest hs _
      have := jsize_pos v
      omega
    · intro x xs rest hs _
      rw [jsizeL] at hs
      omega
    · intro k v fs rest hs _
      rw [jsizeF] at hs
      omega
  | succ fuel ih =>
    obtain ⟨ihV, ihE, ihF⟩ := ih
    refine ⟨?_, ?_, ?_⟩
    · intro v rest hs hrest
      cases v with
      | null =>
        rw [show encC .null = ['n', 'u', 'l', 'l'] from rfl]
        simp only [List.cons_append, List.nil_append]
        rw [parseVal_cons, if_pos rfl]
        rfl
      | bool b =>
        cases b with
        | true =>
          rw [show encC (.bool true) = ['t', 'r', 'u', 'e'] from rfl]
          simp only [List.cons_append, List.nil_append]
          rw [parseVal_cons, if_neg (by decide), if_pos rfl]
          rfl
        | false =>
          rw [show encC (.bool false) = ['f', 'a', 'l', 's', 'e'] from rfl]
          simp only [List.cons_append, List.nil_append]
          rw [parseVal_cons, if_neg (by decide), if_neg (by decide), if_pos rfl]
          rfl
      | num n =>
        obtain ⟨c, t, hct, hc⟩ := intChars_head n
        rw [show encC (.num n) = intChars n from rfl, hct]
        simp only [List.cons_append]
        rw [parseVal_cons]
        rw [if_neg (char_ne_of_toNat_ne (by rcases hc with h | h <;> simp [h] <;> omega))]
        rw [if_neg (char_ne_of_toNat_ne (by rcases hc with h | h <;> simp [h] <;> omega))]
        rw [if_neg (char_ne_of_toNat_ne (by rcases hc with h | h <;> simp [h] <;> omega))]
        rw [if_neg (char_ne_of_toNat_ne (by rcases hc with h | h <;> simp [h] <;> omega))]
        rw [if_neg (char_ne_of_toNat_ne (by rcases hc with h | h <;> simp [h] <;> omega))]
        rw [if_neg (char_ne_of_toNat_ne (by rcases hc with h | h <;> simp [h] <;> omega))]
        rw [← List.cons_append, ← hct, parseNum_intChars n rest hrest]
        rfl
      | str s =>
        rw [show encC (.str s) = '"' :: (escStr s.data ++ ['"']) from rfl]
        simp only [List.cons_append, List.append_assoc, List.singleton_append,
          List.nil_append]
        rw [parseVal_cons, if_neg (by decide), if_neg (by decide), if_neg (by decide),
          if_pos rfl]
        rw [parseStrBody_escStr]
        rfl
      | arr xs =>
        cases xs with
        | nil =>
          rw [show encC (.arr []) = ['[', ']'] from rfl]
          simp only [List.cons_append, List.nil_append]
          rw [parseVal_cons, if_neg (by decide), if_neg (by decide), if_neg (by decide),
            if_neg (by decide), if_pos rfl]
          rw [if_pos (show ((']' : Char) :: rest).head? = some ']' from rfl)]
          rfl
        | cons x xs =>
          rw [show encC (.arr (x :: xs)) = '[' :: (encCL (x :: xs) ++ [']']) from rfl]
          simp only [List.cons_append, List.append_assoc, List.singleton_append,
            List.nil_append]
          rw [parseVal_cons, if_neg (by decide), if_neg (by decide), if_neg (by decide),
            if_neg (by decide), if_pos rfl]
          obtain ⟨t, ht⟩ := encCL_cons x xs
          obtain ⟨c2, t3, hc2, h93, _⟩ := encC_head x
          have hhead : (encCL (x :: xs) ++ ']' :: rest).head? = some c2 := by
            rw [ht, hc2]
            simp
          rw [if_neg (by
            rw [hhead]
            intro hcontra
            rw [Option.some_inj] at hcontra
            exact h93 (congrArg Char.toNat hcontra))]
          rw [jsize] at hs
          rw [ihE x xs rest (by omega) hrest]
          rfl
      | obj fs =>
        cases fs with
        | nil =>
          rw [show encC (.obj []) = ['\x7b', '\x7d'] from rfl]
          simp only [List.cons_append, List.nil_append]
          rw [parseVal_cons, if_neg (by decide), if_neg (by decide), if_neg (by decide),
            if_neg (by decide), if_neg (by decide), if_pos rfl]
          rw [if_pos (show (('\x7d' : Char) :: rest).head? = some '\x7d' from rfl)]
          rfl
        | cons f fs =>
          rcases f with ⟨k, v⟩
          rw [show encC (.obj ((k, v) :: fs)) = '\x7b' :: (encCF ((k, v) :: fs) ++ ['\x7d']) from rfl]
          simp only [List.cons_append, List.append_assoc, List.singleton_append,
            List.nil_append]
          rw [parseVal_cons, if_neg (by decide), if_neg (by decide), if_neg (by decide),
            if_neg (by decide), if_neg (by decide), if_pos rfl]
          obtain ⟨t, ht⟩ := encCF_cons (k, v) fs
          have hhead : (encCF ((k, v) :: fs) ++ '\x7d' :: rest).head? = some '"' := by
            rw [ht]
            simp
          rw [if_neg (by
            rw [hhead]
            intro hcontra
            rw [Option.some_inj] at hcontra
            exact absurd (congrArg Char.toNat hcontra) (by decide))]
          rw [jsize] at hs
          rw [ihF k v fs rest (by omega) hrest]
          rfl
    · intro x xs rest hs hrest
      rw [jsizeL] at hs
      have hx : jsize x ≤ fuel := by omega
      cases xs with
      | nil =>
        rw [show encCL [x] = encC x from rfl]
        rw [parseElems_succ]
        rw [ihV x (']' :: rest) hx rfl]
        show (match ']' :: rest with
          | ',' :: r2 => ((parseElems fuel) r2).map (fun p => (x :: p.1, p.2))
          | ']' :: r2 => some ([x], r2)
          | _ => none) = some ([x], rest)
        rfl
      | cons y ys =>
        rw [show encCL (x :: y :: ys) = encC x ++ ',' :: encCL (y :: ys) from rfl]
        simp only [List.cons_append, List.append_assoc]
        rw [parseElems_succ]
        rw [show (encC x ++ (',' :: (encCL (y :: ys) ++ ']' :: rest)))
            = encC x ++ ',' :: (encCL (y :: ys) ++ ']' :: rest) from rfl]
        rw [ihV x (',' :: (encCL (y :: ys) ++ ']' :: rest)) hx rfl]
        show (parseElems fuel (encCL (y :: ys) ++ ']' :: rest)).map (fun p => (x :: p.1, p.2))
          = some (x :: y :: ys, rest)
        have hy := jsize_pos x
        rw [ihE y ys rest (by omega) hrest]
        rfl
    · intro k v fs rest hs hrest
      rw [jsizeF] at hs
      have hv : jsize v ≤ fuel := by omega
      cases fs with
      | nil =>
        rw [show encCF [(k, v)] = '"' :: (escStr k.data ++ '"' :: ':' :: encC v) from rfl]
        simp only [List.cons_append, List.append_assoc]
        rw [parseFields_quote]
        rw [parseStrBody_escStr]
        show fieldsCont2 (String.mk k.data) (parseVal fuel (encC v ++ '\x7d' :: rest))
          (parseFields fuel) = some ([(k, v)], rest)
        rw [ihV v ('\x7d' :: rest) hv rfl]
        rfl
      | cons g gs =>
        rcases g with ⟨k2, v2⟩
        rw [show encCF ((k, v) :: (k2, v2) :: gs)
            = ('"' :: (escStr k.data ++ '"' :: ':' :: encC v)) ++ ',' :: encCF ((k2, v2) :: gs)
            from rfl]
        simp only [List.cons_append, List.append_assoc]
        rw [parseFields_quote]
        rw [parseStrBody_escStr]
        show fieldsCont2 (String.mk k.data)
          (parseVal fuel (encC v ++ ',' :: (encCF ((k2, v2) :: gs) ++ '\x7d' :: rest)))
          (parseFields fuel) = some ((k, v) :: (k2, v2) :: gs, rest)
        rw [ihV v (',' :: (encCF ((k2, v2) :: gs) ++ '\x7d' :: rest)) hv rfl]
        show (parseFields fuel (encCF ((k2, v2) :: gs) ++ '\x7d' :: rest)).map
          (fun p => ((String.mk k.data, v) :: p.1, p.2)) = some ((k, v) :: (k2, v2) :: gs, rest)
        have := jsize_pos v
        rw [ihF k2 v2 gs rest (by omega) hrest]
        rfl

theorem enc_len (fuel : Nat) :
    (∀ v, jsize v ≤ fuel → jsize v ≤ (encC v).length)
  ∧ (∀ xs, jsizeL xs ≤ fuel → jsizeL xs ≤ (encCL xs).length + 1)
  ∧ (∀ fs, jsizeF fs ≤ fuel → jsizeF fs ≤ (encCF fs).length + 1) := by
  induction fuel with
  | zero =>
    refine ⟨?_, ?_, ?_⟩
    · intro v hs
      have := jsize_pos v
      omega
    · intro xs hs
      cases xs with
      | nil => rw [jsizeL]; omega
      | cons x xs => rw [jsizeL] at hs; have := jsize_pos x; omega
    · intro fs hs
      cases fs with
      | nil => rw [jsizeF]; omega
      | cons f fs =>
        rcases f with ⟨k, v⟩
        rw [jsizeF] at hs
        have := jsize_pos v
        omega
  | succ fuel ih =>
    obtain ⟨ihV, ihL, ihF⟩ := ih
    refine ⟨?_, ?_, ?_⟩
    · intro v hs
      cases v with
      | null => rw [jsize]; decide
      | bool b => cases b <;> simp [jsize, encC]
      | num n =>
        obtain ⟨c, t, hct, _⟩ := intChars_head n
        rw [jsize, show encC (.num n) = intChars n from rfl, hct]
        simp
      | str s =>
        rw [jsize, show encC (.str s) = '"' :: (escStr s.data ++ ['"']) from rfl]
        simp
      | arr xs =>
        rw [jsize] at hs ⊢
        rw [show encC (.arr xs) = '[' :: (encCL xs ++ [']']) from rfl]
        have := ihL xs (by omega)
        simp only [List.length_cons, List.length_append, List.length_singleton]
        omega
      | obj fs =>
        rw [jsize] at hs ⊢
        rw [show encC (.obj fs) = '\x7b' :: (encCF fs ++ ['\x7d']) from rfl]
        have := ihF fs (by omega)
        simp only [List.length_cons, List.length_append, List.length_singleton]
        omega
    · intro xs hs
      cases xs with
      | nil => rw [jsizeL]; omega
      | cons x xs =>
        rw [jsizeL] at hs ⊢
        cases xs with
        | nil =>
          rw [show encCL [x] = encC x from rfl]
          have := ihV x (by have := jsize_pos x; omega)
          rw [jsizeL]
          omega
        | cons y ys =>
          rw [show encCL (x :: y :: ys) = encC x ++ ',' :: encCL (y :: ys) from rfl]
          have h1 := ihV x (by have := jsize_pos x; omega)
          have h2 := ihL (y :: ys) (by
            have := jsize_pos x
            rw [jsizeL] at hs ⊢
            have := jsize_pos y
            omega)
          simp only [List.length_append, List.length_cons]
          omega
    · intro fs hs
      cases fs with
      | nil => rw [jsizeF]; omega
      | cons f fs =>
        rcases f with ⟨k, v⟩
        rw [jsizeF] at hs ⊢
        cases fs with
        | nil =>
          rw [show encCF [(k, v)] = '"' :: (escStr k.data ++ '"' :: ':' :: encC v) from rfl]
          have := ihV v (by have := jsize_pos v; omega)
          rw [jsizeF]
          simp only [List.length_cons, List.length_append]
          omega
        | cons g gs =>
          rcases g with ⟨k2, v2⟩
          rw [show encCF ((k, v) :: (k2, v2) :: gs)
              = ('"' :: (escStr k.data ++ '"' :: ':' :: encC v)) ++ ',' :: encCF ((k2, v2) :: gs)
              from rfl]
          have h1 := ihV v (by have := jsize_pos v; omega)
          have h2 := ihF ((k2, v2) :: gs) (by
            have := jsize_pos v
            rw [jsizeF] at hs ⊢
            have := jsize_pos v2
            omega)
          simp only [List.length_append, List.length_cons]
          omega

theorem jsonDecode_encode (v : Json) : jsonDecode (jsonEncode v ++ "\n") = some v := by
  have hdata : (jsonEncode v ++ "\n").data = encC v ++ ['\n'] := by
    rw [String.data_append]
    rfl
  rw [jsonDecode, hdata]
  have hlen : jsize v ≤ (encC v).length := (enc_len (jsize v)).1 v (le_refl _)
  rw [(parse_enc ((encC v ++ ['\n']).length + 1)).1 v ['\n']
    (by simp only [List.length_append, List.length_singleton]; omega) rfl]
  rfl

theorem findRoute_append_none (routes1 routes2 : List Route) (req : Request)
    (h : ∀ r ∈ routes1, fullMatch r req = false) :
    findRoute (routes1 ++ routes2) req = findRoute routes2 req := by
  induction routes1 with
  | nil => rfl
  | cons r rest ih =>
    rw [List.cons_append, findRoute]
    rw [if_neg (by rw [h r (by simp)]; simp)]
    exact ih (fun r hr => h r (by simp [hr]))

theorem findRoute_first (routes1 : List Route) (r : Route) (routes2 : List Route)
    (req : Request) (h1 : ∀ r2 ∈ routes1, fullMatch r2 req = false)
    (h2 : fullMatch r req = true) :
    findRoute (routes1 ++ r :: routes2) req = some r := by
  rw [findRoute_append_none routes1 _ req h1, findRoute, if_pos h2]

theorem dispatch_first (routes1 : List Route) (r : Route) (routes2 : List Route)
    (req : Request) (h1 : ∀ r2 ∈ routes1, fullMatch r2 req = false)
    (h2 : fullMatch r req = true) :
    dispatch (routes1 ++ r :: routes2) req = .matched r := by
  rw [dispatch, findRoute_first routes1 r routes2 req h1 h2]

theorem findRoute_none (routes : List Route) (req : Request)
    (h : ∀ r ∈ routes, fullMatch r req = false) :
    findRoute routes req = none := by
  induction routes with
  | nil => rfl
  | cons r rest ih =>
    rw [findRoute, if_neg (by rw [h r (by simp)]; simp)]
    exact ih (fun r hr => h r (by simp [hr]))

theorem dispatch_notFound (routes : List Route) (req : Request)
    (h : ∀ r ∈ routes, pathMatches r.pattern req.path = false) :
    dispatch routes req = .notFound := by
  rw [dispatch, findRoute_none routes req (fun r hr => by
    rw [fullMatch, h r hr]
    rfl)]
  rw [if_neg (by
    intro hcontra
    rw [List.any_eq_true] at hcontra
    obtain ⟨r, hr, hp⟩ := hcontra
    rw [h r hr] at hp
    exact Bool.false_ne_true hp)]

theorem dispatch_methodNotAllowed (routes : List Route) (req : Request)
    (hno : ∀ r ∈ routes, fullMatch r req = false)
    (hsome : ∃ r ∈ routes, pathMatches r.pattern req.path = true) :
    dispatch routes req = .methodNotAllowed := by
  rw [dispatch, findRoute_none routes req hno]
  rw [if_pos (by
    rw [List.any_eq_true]
    obtain ⟨r, hr, hp⟩ := hsome
    exact ⟨r, hr, hp⟩)]

theorem mem_pluginRoutes (r : Route) (l : List (String × Plugin)) :
    r ∈ pluginRoutes l
      ↔ ∃ n p, (n, p) ∈ l ∧ p.Enabled = true ∧ ∃ ep ∈ p.Endpoints, r = addEndpoint ep n := by
  induction l with
  | nil =>
    rw [pluginRoutes]
    simp
  | cons e rest ih =>
    rcases e with ⟨n, p⟩
    rw [pluginRoutes, List.mem_append, ih]
    constructor
    · intro h
      rcases h with h | ⟨n2, p2, hmem, hen, ep, hep, hr⟩
      · by_cases hen : p.Enabled
        · rw [if_pos hen] at h
          rw [List.mem_map] at h
          obtain ⟨ep, hep, hr⟩ := h
          exact ⟨n, p, by simp, hen, ep, hep, hr.symm⟩
        · rw [if_neg hen] at h
          simp at h
      · exact ⟨n2, p2, by simp [hmem], hen, ep, hep, hr⟩
    · intro ⟨n2, p2, hmem, hen, ep, hep, hr⟩
      rw [List.mem_cons] at hmem
      rcases hmem with hmem | hmem
      · left
        rw [Prod.mk.injEq] at hmem
        obtain ⟨hn, hp⟩ := hmem
        subst hn
        subst hp
        rw [if_pos hen, List.mem_map]
        exact ⟨ep, hep, hr.symm⟩
      · right
        exact ⟨n2, p2, hmem, hen, ep, hep, hr⟩

theorem mem_SetupRoutes (r : Route) (config : Config) (plugins : List (String × Plugin)) :
    r ∈ SetupRoutes config plugins
      ↔ r ∈ managementRoutes ∨ r = healthRoute
        ∨ (∃ ep ∈ config.Endpoints, r = addEndpoint ep "main")
        ∨ r ∈ pluginRoutes plugins := by
  rw [SetupRoutes]
  simp only [List.mem_append, List.mem_cons, List.mem_map]
  constructor
  · intro h
    rcases h with h | h | h | h
    · exact Or.inl h
    · exact Or.inr (Or.inl h)
    · obtain ⟨ep, hep, hr⟩ := h
      exact Or.inr (Or.inr (Or.inl ⟨ep, hep, hr.symm⟩))
    · exact Or.inr (Or.inr (Or.inr h))
  · intro h
    rcases h with h | h | ⟨ep, hep, hr⟩ | h
    · exact Or.inl h
    · exact Or.inr (Or.inl h)
    · exact Or.inr (Or.inr (Or.inl ⟨ep, hep, hr.symm⟩))
    · exact Or.inr (Or.inr (Or.inr h))

theorem lookupA_insertAssoc {α : Type} (l : List (String × α)) (k k2 : String) (v : α) :
    lookupA (insertAssoc l k v) k2 = if k = k2 then some v else lookupA l k2 := by
  induction l with
  | nil =>
    by_cases hk : k = k2 <;> simp [insertAssoc, lookupA, hk]
  | cons e rest ih =>
    rcases e with ⟨k3, v3⟩
    by_cases h3 : k3 = k
    · subst h3
      by_cases hk : k3 = k2 <;> simp [insertAssoc, lookupA, hk]
    · by_cases hk : k3 = k2
      · subst hk
        simp [insertAssoc, lookupA, h3, if_neg (show ¬ k = k3 from fun h => h3 h.symm)]
      · simp [insertAssoc, lookupA, h3, hk, ih]

theorem lookupA_updateAssoc {α : Type} (l : List (String × α)) (k k2 : String) (v : α) :
    lookupA (updateAssoc l k v) k2
      = if k = k2 then (lookupA l k).map (fun _ => v) else lookupA l k2 := by
  induction l with
  | nil =>
    by_cases hk : k = k2 <;> simp [updateAssoc, lookupA, hk]
  | cons e rest ih =>
    rcases e with ⟨k3, v3⟩
    rw [updateAssoc, List.map_cons]
    rw [show List.map (fun e => if e.1 = k then (k, v) else e) rest = updateAssoc rest k v
      from rfl]
    by_cases h3 : k3 = k
    · rw [if_pos (show ((k3, v3) : String × α).1 = k from h3)]
      subst h3
      by_cases hk : k3 = k2
      · simp [lookupA, hk]
      · simp [lookupA, hk, ih]
    · rw [if_neg (show ¬ ((k3, v3) : String × α).1 = k from h3)]
      by_cases hk : k3 = k2
      · subst hk
        have hkk2 : ¬ k = k3 := fun hc => h3 hc.symm
        simp [lookupA, hkk2]
      · simp [lookupA, hk, h3, ih]

theorem updateAssoc_updateAssoc {α : Type} (l : List (String × α)) (k : String) (v1 v2 : α) :
    updateAssoc (updateAssoc l k v1) k v2 = updateAssoc l k v2 := by
  rw [updateAssoc, updateAssoc, updateAssoc, List.map_map]
  apply List.map_congr_left
  intro e _
  by_cases h : e.1 = k <;> simp [h]

theorem updateAssoc_not_mem {α : Type} (l : List (String × α)) (k : String) (v : α)
    (h : ¬ k ∈ l.map Prod.fst) : updateAssoc l k v = l := by
  induction l with
  | nil => rfl
  | cons e rest ih =>
    rcases e with ⟨k2, v2⟩
    rw [List.map_cons, List.mem_cons] at h
    push_neg at h
    rw [updateAssoc, List.map_cons]
    rw [if_neg (show ¬ ((k2, v2) : String × α).1 = k from fun hc => h.1 hc.symm)]
    rw [show List.map (fun e => if e.1 = k then (k, v) else e) rest = updateAssoc rest k v
      from rfl]
    rw [ih h.2]

theorem updateAssoc_self {α : Type} (l : List (String × α)) (k : String) (p : α)
    (hnod : (l.map Prod.fst).Nodup) (h : lookupA l k = some p) :
    updateAssoc l k p = l := by
  induction l with
  | nil => rfl
  | cons e rest ih =>
    rcases e with ⟨k2, v2⟩
    rw [lookupA] at h
    rw [List.map_cons, List.nodup_cons] at hnod
    rw [updateAssoc, List.map_cons]
    rw [show List.map (fun e => if e.1 = k then (k, p) else e) rest = updateAssoc rest k p
      from rfl]
    by_cases hk : k2 = k
    · rw [if_pos hk] at h
      simp only [Option.some_inj] at h
      subst h
      subst hk
      rw [if_pos rfl]
      rw [updateAssoc_not_mem rest _ _ hnod.1]
    · rw [if_neg hk] at h
      rw [if_neg (show ¬ ((k2, v2) : String × α).1 = k from hk), ih hnod.2 h]

theorem lookupA_loadStep (acc : List (String × Plugin)) (e : String × PFile) (k : String) :
    lookupA (loadStep acc e) k = (contrib k e).or (lookupA acc k) := by
  rcases e with ⟨fn, f⟩
  cases f with
  | valid p =>
    have hload : loadStep acc (fn, PFile.valid p)
        = if strEndsWith fn ".json"
          then insertAssoc acc (effPlugin fn p).Name (effPlugin fn p) else acc := rfl
    have hcontrib : contrib k (fn, PFile.valid p)
        = if strEndsWith fn ".json" ∧ (effPlugin fn p).Name = k
          then some (effPlugin fn p) else none := rfl
    rw [hload, hcontrib]
    by_cases hjson : strEndsWith fn ".json"
    · rw [if_pos hjson, lookupA_insertAssoc]
      by_cases hk : (effPlugin fn p).Name = k
      · rw [if_pos hk, if_pos (And.intro hjson hk), Option.or_some]
      · rw [if_neg hk, if_neg (fun hc => hk hc.2), Option.none_or]
    · rw [if_neg hjson, if_neg (fun hc => hjson hc.1), Option.none_or]
  | malformed =>
    have hload : loadStep acc (fn, PFile.malformed)
        = if strEndsWith fn ".json" then acc else acc := rfl
    rw [hload, ite_self]
    rfl
  | dir =>
    have hload : loadStep acc (fn, PFile.dir)
        = if strEndsWith fn ".json" then acc else acc := rfl
    rw [hload, ite_self]
    rfl

theorem lookupA_foldl_loadStep (files : List (String × PFile)) :
    ∀ (acc : List (String × Plugin)) (k : String),
    lookupA (files.foldl loadStep acc) k = (lastContrib k files).or (lookupA acc k) := by
  induction files with
  | nil =>
    intro acc k
    rw [List.foldl_nil, lastContrib, Option.none_or]
  | cons e rest ih =>
    intro acc k
    rw [List.foldl_cons, ih (loadStep acc e) k, lastContrib, lookupA_loadStep,
      Option.or_assoc]

theorem lastContrib_name (k : String) (files : List (String × PFile)) (q : Plugin)
    (h : lastContrib k files = some q) : k ∈ validJsonNames files := by
  induction files with
  | nil => exact absurd h (by rw [lastContrib]; simp)
  | cons e rest ih =>
    rw [lastContrib] at h
    rcases hrest : lastContrib k rest with _ | q2
    · rw [hrest, Option.none_or] at h
      rcases e with ⟨fn, f⟩
      cases f with
      | valid p =>
        have hcontrib : contrib k (fn, PFile.valid p)
            = if strEndsWith fn ".json" ∧ (effPlugin fn p).Name = k
              then some (effPlugin fn p) else none := rfl
        rw [hcontrib] at h
        by_cases hc : strEndsWith fn ".json" ∧ (effPlugin fn p).Name = k
        · rw [validJsonNames, if_pos hc.1]
          simp [hc.2]
        · rw [if_neg hc] at h
          exact absurd h (by simp)
      | malformed => exact absurd h (by rw [show contrib k (fn, PFile.malformed) = none from rfl]; simp)
      | dir => exact absurd h (by rw [show contrib k (fn, PFile.dir) = none from rfl]; simp)
    · rw [hrest, Option.or_some] at h
      rw [Option.some_inj] at h
      subst h
      rcases e with ⟨fn, f⟩
      cases f with
      | valid p =>
        rw [validJsonNames, List.mem_append]
        exact Or.inr (ih hrest)
      | malformed =>
        rw [show validJsonNames ((fn, PFile.malformed) :: rest) = validJsonNames rest from rfl]
        exact ih hrest
      | dir =>
        rw [show validJsonNames ((fn, PFile.dir) :: rest) = validJsonNames rest from rfl]
        exact ih hrest

theorem loadStep_skipped (acc : List (String × Plugin)) (e : String × PFile)
    (h : skippedEntry e = true) : loadStep acc e = acc := by
  rcases e with ⟨fn, f⟩
  rw [skippedEntry] at h
  rw [Bool.and_eq_true] at h
  cases f with
  | valid p => simp at h
  | malformed =>
    have : loadStep acc (fn, PFile.malformed)
        = if strEndsWith fn ".json" then acc else acc := rfl
    rw [this, ite_self]
  | dir => simp at h

theorem foldl_loadStep_filter (files : List (String × PFile)) :
    ∀ acc, files.foldl loadStep acc
      = (files.filter (fun e => !skippedEntry e)).foldl loadStep acc := by
  induction files with
  | nil => intro acc; rfl
  | cons e rest ih =>
    intro acc
    rw [List.foldl_cons, List.filter_cons]
    by_cases h : skippedEntry e
    · rw [loadStep_skipped acc e h]
      rw [if_neg (by rw [h]; simp)]
      exact ih acc
    · have hb : skippedEntry e = false := by
        rw [← Bool.not_eq_true]
        exact h
      rw [if_pos (by rw [hb]; rfl)]
      rw [List.foldl_cons]
      exact ih (loadStep acc e)

theorem lastContrib_of_mem (files : List (String × PFile)) (fname : String) (p : Plugin)
    (hnod : (validJsonNames files).Nodup)
    (hmem : (fname, PFile.valid p) ∈ files)
    (hjson : strEndsWith fname ".json" = true) :
    lastContrib (effPlugin fname p).Name files = some (effPlugin fname p) := by
  induction files with
  | nil => simp at hmem
  | cons e rest ih =>
    rw [List.mem_cons] at hmem
    rw [lastContrib]
    by_cases hr : (fname, PFile.valid p) ∈ rest
    · have hnodrest : (validJsonNames rest).Nodup := by
        rcases e with ⟨fn2, f2⟩
        cases f2 with
        | valid p2 =>
          rw [validJsonNames] at hnod
          by_cases hj2 : strEndsWith fn2 ".json"
          · rw [if_pos hj2] at hnod
            simp only [List.singleton_append, List.nodup_cons] at hnod
            exact hnod.2
          · rw [if_neg (by simpa using hj2)] at hnod
            simpa using hnod
        | malformed =>
          rw [show validJsonNames ((fn2, PFile.malformed) :: rest) = validJsonNames rest
            from rfl] at hnod
          exact hnod
        | dir =>
          rw [show validJsonNames ((fn2, PFile.dir) :: rest) = validJsonNames rest
            from rfl] at hnod
          exact hnod
      rw [ih hnodrest hr, Option.or_some]
    · rcases hmem with hmem | hmem
    -- e is exactly our entry; no later duplicate exists
      · subst hmem
        have hnone : lastContrib (effPlugin fname p).Name rest = none := by
          rcases hcontra : lastContrib (effPlugin fname p).Name rest with _ | q2
          · rfl
          · have hin := lastContrib_name _ rest q2 hcontra
            rw [validJsonNames, if_pos hjson] at hnod
            simp only [List.singleton_append, List.nodup_cons] at hnod
            exact absurd hin hnod.1
        rw [hnone, Option.none_or]
        have : contrib (effPlugin fname p).Name (fname, PFile.valid p)
            = if strEndsWith fname ".json" ∧ (effPlugin fname p).Name = (effPlugin fname p).Name
              then some (effPlugin fname p) else none := rfl
        rw [this, if_pos ⟨hjson, rfl⟩]
      · exact absurd hmem hr

theorem segMatch_self (s : List Char) : segMatch s s = true := by
  rw [segMatch]
  by_cases h : isVarSeg s
  · rw [if_pos h]
    cases s with
    | nil => exact absurd h (by decide)
    | cons c rest => rfl
  · rw [if_neg h]
    exact beq_self_eq_true s

theorem segsMatch_self (ss : List (List Char)) : segsMatch ss ss = true := by
  induction ss with
  | nil => rfl
  | cons s rest ih =>
    rw [segsMatch, segMatch_self, ih]
    rfl

theorem pathMatches_self (p : String) (t : List Char)
    (h : p.data = '/' :: t) : pathMatches p p = true := by
  rw [pathMatches, h]
  exact segsMatch_self _

theorem mem_updateAssoc {α : Type} (l : List (String × α)) (k n : String) (v q : α)
    (h : (n, q) ∈ updateAssoc l k v) :
    (n = k ∧ q = v) ∨ ((n, q) ∈ l ∧ n ≠ k) := by
  rw [updateAssoc, List.mem_map] at h
  obtain ⟨e, he, heq⟩ := h
  by_cases hk : e.1 = k
  · rw [if_pos hk] at heq
    rw [Prod.mk.injEq] at heq
    exact Or.inl ⟨heq.1.symm, heq.2.symm⟩
  · rw [if_neg hk] at heq
    subst heq
    exact Or.inr ⟨he, hk⟩

theorem serveRequest_matched_endpoint (sys : Sys) (req : Request) (ep : Endpoint)
    (src : String) (h : dispatch sys.served req = .matched (addEndpoint ep src)) :
    serveRequest sys req = (execEndpoint ep, sys) := by
  rw [serveRequest, h]
  rfl

/-- C4: for every declaration and every request whose method and path
exactly match that declaration's compiled route (and which the earlier
compiled routes do not capture), the response status code equals the
declaration's status code, except that a declared status code of 0
yields 200. -/
theorem claim_C4_status_code (config : Config) (plugins : List (String × Plugin))
    (files : Option (List (String × PFile))) (routes1 routes2 : List Route)
    (d : Endpoint) (src : String) (req : Request) (t : List Char)
    (htable : SetupRoutes config plugins = routes1 ++ addEndpoint d src :: routes2)
    (hfirst : ∀ r ∈ routes1, fullMatch r req = false)
    (hslash : d.Path.data = '/' :: t)
    (hpath : req.path = d.Path)
    (hmethod : req.method = upStr d.Method) :
    (serveRequest (mkSys config plugins files) req).1.status
      = if d.StatusCode = 0 then 200 else d.StatusCode := by
  have hfull : fullMatch (addEndpoint d src) req = true := by
    show (pathMatches d.Path req.path && (upStr d.Method == req.method)) = true
    rw [hpath, hmethod, pathMatches_self d.Path t hslash]
    simp
  have hdisp : dispatch (SetupRoutes config plugins) req = .matched (addEndpoint d src) := by
    rw [htable]
    exact dispatch_first routes1 _ routes2 req hfirst hfull
  rw [serveRequest_matched_endpoint (mkSys config plugins files) req d src hdisp]
  rfl

/-- Witness for C4 at a concrete configuration: a declared status 207
is returned verbatim for the exactly matching request. -/
theorem claim_C4_status_code_witness :
    (serveRequest (mkSys c4Config [] none) { method := "GET", path := "/api/test" }).1.status
      = 207 := by
  have h := claim_C4_status_code c4Config [] none (managementRoutes ++ [healthRoute]) []
    c4Ep "main" { method := "GET", path := "/api/test" } "api/test".data
    rfl (by decide) rfl rfl rfl
  simpa using h

/-- C2 counterexample: with a base declaration and a plugin declaration
sharing path and method, a matching request is answered with the
earlier-compiled base declaration's response, not the later-compiled
plugin response the claim predicts. -/
theorem claim_C2_counterexample :
    (SetupRoutes c2Config c2Plugins
      = (managementRoutes ++ [healthRoute])
        ++ addEndpoint c2BaseEp "main" :: [addEndpoint c2PluginEp "p"])
    ∧ fullMatch (addEndpoint c2PluginEp "p") { method := "GET", path := "/x" } = true
    ∧ (serveRequest (mkSys c2Config c2Plugins none) { method := "GET", path := "/x" }).1.body = "A"
    ∧ ¬ ((serveRequest (mkSys c2Config c2Plugins none) { method := "GET", path := "/x" }).1.body
          = "B") := by
  refine ⟨rfl, by decide, rfl, ?_⟩
  intro h
  rw [show (serveRequest (mkSys c2Config c2Plugins none) { method := "GET", path := "/x" }).1.body
    = "A" from rfl] at h
  exact absurd h (by decide)

/-- C2 amended: when two declarations compiled into the same dispatch
table share a path pattern and upper-cased method, dispatching a
request matching both yields the response of the declaration compiled
earlier (gorilla/mux tries routes in registration order and the first
full match wins); in particular a base-configuration declaration
shadows a plugin declaration with the same path and method, because
base routes are compiled before plugin routes. -/
theorem claim_C2_amended (config : Config) (plugins : List (String × Plugin))
    (files : Option (List (String × PFile))) (routes1 routes2 : List Route)
    (d : Endpoint) (src : String) (req : Request)
    (htable : SetupRoutes config plugins = routes1 ++ addEndpoint d src :: routes2)
    (hfirst : ∀ r ∈ routes1, fullMatch r req = false)
    (hfull : fullMatch (addEndpoint d src) req = true) :
    (serveRequest (mkSys config plugins files) req).1 = execEndpoint d
    ∧ SetupRoutes config plugins
        = managementRoutes ++ healthRoute ::
            (config.Endpoints.map (fun ep => addEndpoint ep "main") ++ pluginRoutes plugins) := by
  have hdisp : dispatch (SetupRoutes config plugins) req = .matched (addEndpoint d src) := by
    rw [htable]
    exact dispatch_first routes1 _ routes2 req hfirst hfull
  constructor
  · rw [serveRequest_matched_endpoint (mkSys config plugins files) req d src hdisp]
  · rfl

/-- Witness for the amended C2: in the counterexample table the base
route is dispatched, yielding body "A". -/
theorem claim_C2_amended_witness :
    (serveRequest (mkSys c2Config c2Plugins none) { method := "GET", path := "/x" }).1
      = execEndpoint c2BaseEp := by
  exact (claim_C2_amended c2Config c2Plugins none (managementRoutes ++ [healthRoute])
    [addEndpoint c2PluginEp "p"] c2BaseEp "main" { method := "GET", path := "/x" }
    rfl (by decide) (by decide)).1

theorem serveRequest_notFound (sys : Sys) (req : Request)
    (h : dispatch sys.served req = .notFound) :
    serveRequest sys req = (notFoundResponse req.path, sys) := by
  rw [serveRequest, h]

theorem serveRequest_methodNotAllowed (sys : Sys) (req : Request)
    (h : dispatch sys.served req = .methodNotAllowed) :
    serveRequest sys req = (methodNotAllowedResponse, sys) := by
  rw [serveRequest, h]

/-- C3 counterexample: a request whose path matches a compiled route
but whose method does not (`POST /health`) is answered by mux's
built-in 405 handler, which writes only the status code — status 405
with an empty body — not by the 404 JSON not-found response the claim
requires for every unmatched (method, path) pair. -/
theorem claim_C3_counterexample :
    (serveRequest (mkSys c3Config [] none) { method := "POST", path := "/health" }).1
        = methodNotAllowedResponse
    ∧ methodNotAllowedResponse.status = 405
    ∧ methodNotAllowedResponse.body = ""
    ∧ ¬ ((serveRequest (mkSys c3Config [] none)
          { method := "POST", path := "/health" }).1.status = 404) := by
  refine ⟨rfl, rfl, rfl, ?_⟩
  intro h
  rw [show (serveRequest (mkSys c3Config [] none)
    { method := "POST", path := "/health" }).1.status = 405 from rfl] at h
  exact absurd h (by decide)

/-- C3 amended: a request whose path matches no compiled route at all
gets status 404 with the JSON body carrying the error message and the
requested path; a request whose path matches some route while no route
fully matches gets mux's built-in 405 response, which carries an empty
body. Dispatch is a total function, so every request receives one of
the compiled responses, the 404 JSON response or the bare 405. -/
theorem claim_C3_amended (config : Config) (plugins : List (String × Plugin))
    (files : Option (List (String × PFile))) (req : Request) :
    ((∀ r ∈ SetupRoutes config plugins, pathMatches r.pattern req.path = false) →
      (serveRequest (mkSys config plugins files) req).1 = notFoundResponse req.path
      ∧ (notFoundResponse req.path).status = 404
      ∧ jsonDecode (notFoundResponse req.path).body
          = some (.obj [("error", .str "Endpoint not found"), ("path", .str req.path)]))
    ∧ ((∀ r ∈ SetupRoutes config plugins, fullMatch r req = false) →
      (∃ r ∈ SetupRoutes config plugins, pathMatches r.pattern req.path = true) →
      (serveRequest (mkSys config plugins files) req).1 = methodNotAllowedResponse
      ∧ methodNotAllowedResponse.status = 405
      ∧ methodNotAllowedResponse.body = "") := by
  constructor
  · intro h
    refine ⟨?_, rfl, ?_⟩
    · exact congrArg Prod.fst (serveRequest_notFound (mkSys config plugins files) req
        (dispatch_notFound (SetupRoutes config plugins) req h))
    · exact jsonDecode_encode (.obj [("error", .str "Endpoint not found"), ("path", .str req.path)])
  · intro hno hsome
    refine ⟨?_, rfl, rfl⟩
    exact congrArg Prod.fst (serveRequest_methodNotAllowed (mkSys config plugins files) req
      (dispatch_methodNotAllowed (SetupRoutes config plugins) req hno hsome))

/-- Witness for the amended C3 at concrete requests: an unmatched path
yields the 404 JSON response, and a matched path with a wrong method
yields the 405 response. -/
theorem claim_C3_amended_witness :
    ((serveRequest (mkSys c3Config [] none) { method := "GET", path := "/nonexistent" }).1
        = notFoundResponse "/nonexistent")
    ∧ (serveRequest (mkSys c3Config [] none) { method := "POST", path := "/health" }).1
        = methodNotAllowedResponse := by
  constructor
  · exact ((claim_C3_amended c3Config [] none
      { method := "GET", path := "/nonexistent" }).1 (by decide)).1
  · exact ((claim_C3_amended c3Config [] none { method := "POST", path := "/health" }).2
      (by decide) ⟨healthRoute, by simp [SetupRoutes, managementRoutes], by decide⟩).1

theorem serveRequest_matched_health (sys : Sys) (req : Request)
    (h : dispatch sys.served req = .matched healthRoute) :
    serveRequest sys req = (healthResponse, sys) := by
  rw [serveRequest, h]
  rfl

theorem execEndpoint_body_str (ep : Endpoint) (s : String)
    (h : ep.Response = some (.str s)) : (execEndpoint ep).body = s := by
  show (match ep.Response with
    | none => ""
    | some (.str s) => s
    | some v => jsonEncode v ++ "\n") = s
  rw [h]

theorem execEndpoint_body_structured (ep : Endpoint) (v : Json)
    (h : ep.Response = some v) (hn : ∀ s, v ≠ .str s) :
    (execEndpoint ep).body = jsonEncode v ++ "\n" := by
  show (match ep.Response with
    | none => ""
    | some (.str s) => s
    | some v => jsonEncode v ++ "\n") = jsonEncode v ++ "\n"
  rw [h]
  cases v with
  | null => rfl
  | bool b => rfl
  | num n => rfl
  | str s => exact absurd rfl (hn s)
  | arr xs => rfl
  | obj fs => rfl

/-- C5: for every matched route, a string-typed declared response is
written to the body byte-for-byte with no quoting or escaping, and any
other declared value produces a body that is valid JSON whose decoded
value deep-equals the declared value (the canonicality hypothesis is
the sorted-key form in which Go map values exist). -/
theorem claim_C5_response_body (config : Config) (plugins : List (String × Plugin))
    (files : Option (List (String × PFile))) (req : Request) (ep : Endpoint) (src : String)
    (hdisp : dispatch (SetupRoutes config plugins) req = .matched (addEndpoint ep src)) :
    (serveRequest (mkSys config plugins files) req).1 = execEndpoint ep
    ∧ (∀ s, ep.Response = some (.str s) → (execEndpoint ep).body = s)
    ∧ (∀ v, ep.Response = some v → (∀ s, v ≠ .str s) → jcanon v = true →
        (execEndpoint ep).body = jsonEncode v ++ "\n"
        ∧ jsonDecode (execEndpoint ep).body = some v) := by
  refine ⟨congrArg Prod.fst
    (serveRequest_matched_endpoint (mkSys config plugins files) req ep src hdisp), ?_, ?_⟩
  · intro s h
    exact execEndpoint_body_str ep s h
  · intro v h hn _
    have hbody := execEndpoint_body_structured ep v h hn
    refine ⟨hbody, ?_⟩
    rw [hbody]
    exact jsonDecode_encode v

/-- Witness for C5: the raw string is emitted byte-for-byte (no quoting
of the quote or ampersand), and the structured value round-trips
through the emitted JSON body. -/
theorem claim_C5_response_body_witness :
    ((serveRequest (mkSys c5Config [] none) { method := "GET", path := "/s" }).1
        = execEndpoint c5StrEp
      ∧ (execEndpoint c5StrEp).body = "He said \"hi\" & left")
    ∧ ((execEndpoint c5ObjEp).body
        = "\x7b\"a\":1,\"b\":[true,null]\x7d\n"
      ∧ jsonDecode (execEndpoint c5ObjEp).body
        = some (.obj [("a", .num 1), ("b", .arr [.bool true, .null])])) := by
  have h1 := claim_C5_response_body c5Config [] none { method := "GET", path := "/s" }
    c5StrEp "main" (by
      have := dispatch_first (managementRoutes ++ [healthRoute]) (addEndpoint c5StrEp "main")
        [addEndpoint c5ObjEp "main"] { method := "GET", path := "/s" } (by decide) (by decide)
      exact this)
  have h2 := claim_C5_response_body c5Config [] none { method := "GET", path := "/o" }
    c5ObjEp "main" (by
      have := dispatch_first (managementRoutes ++ [healthRoute, addEndpoint c5StrEp "main"])
        (addEndpoint c5ObjEp "main") [] { method := "GET", path := "/o" } (by decide) (by decide)
      exact this)
  obtain ⟨h2body, h2dec⟩ := h2.2.2 _ rfl (by intro s h; cases h) rfl
  refine ⟨⟨h1.1, h1.2.1 _ rfl⟩, ?_, h2dec⟩
  rw [h2body]
  rfl

/-- C10: every structured response body — including the built-in health
check's — is the JSON encoding followed by exactly one newline
character, while a string-typed response body is the declared string
with no newline appended. -/
theorem claim_C10_trailing_newline (config : Config) (plugins : List (String × Plugin))
    (files : Option (List (String × PFile))) :
    ((serveRequest (mkSys config plugins files) { method := "GET", path := "/health" }).1
        = healthResponse
      ∧ healthResponse.body = "\x7b\"status\":\"ok\"\x7d\n")
    ∧ ∀ ep src req, dispatch (SetupRoutes config plugins) req = .matched (addEndpoint ep src) →
        (∀ v, ep.Response = some v → (∀ s, v ≠ .str s) →
          (serveRequest (mkSys config plugins files) req).1.body = jsonEncode v ++ "\n")
        ∧ (∀ s, ep.Response = some (.str s) →
          (serveRequest (mkSys config plugins files) req).1.body = s) := by
  constructor
  · constructor
    · have hdisp : dispatch (SetupRoutes config plugins)
          { method := "GET", path := "/health" } = .matched healthRoute := by
        have := dispatch_first managementRoutes healthRoute
          (config.Endpoints.map (fun ep => addEndpoint ep "main") ++ pluginRoutes plugins)
          { method := "GET", path := "/health" } (by decide) (by decide)
        exact this
      exact congrArg Prod.fst (serveRequest_matched_health (mkSys config plugins files)
        { method := "GET", path := "/health" } hdisp)
    · rfl
  · intro ep src req hdisp
    have hresp := serveRequest_matched_endpoint (mkSys config plugins files) req ep src hdisp
    constructor
    · intro v h hn
      rw [show (serveRequest (mkSys config plugins files) req).1 = execEndpoint ep
        from congrArg Prod.fst hresp]
      exact execEndpoint_body_structured ep v h hn
    · intro s h
      rw [show (serveRequest (mkSys config plugins files) req).1 = execEndpoint ep
        from congrArg Prod.fst hresp]
      exact execEndpoint_body_str ep s h

/-- Witness for C10: the health body carries the single trailing
newline, a structured endpoint body does too, and a raw string body
does not. -/
theorem claim_C10_trailing_newline_witness :
    ((serveRequest (mkSys c5Config [] none) { method := "GET", path := "/health" }).1
        = healthResponse
      ∧ healthResponse.body = "\x7b\"status\":\"ok\"\x7d\n")
    ∧ (serveRequest (mkSys c5Config [] none) { method := "GET", path := "/s" }).1.body
        = "He said \"hi\" & left" := by
  have h := claim_C10_trailing_newline c5Config [] none
  refine ⟨h.1, ?_⟩
  exact (h.2 c5StrEp "main" { method := "GET", path := "/s" } (by
    have := dispatch_first (managementRoutes ++ [healthRoute]) (addEndpoint c5StrEp "main")
      [addEndpoint c5ObjEp "main"] { method := "GET", path := "/s" } (by decide) (by decide)
    exact this)).2 _ rfl

theorem updateAssoc_keys {α : Type} (l : List (String × α)) (k : String) (v : α) :
    (updateAssoc l k v).map Prod.fst = l.map Prod.fst := by
  rw [updateAssoc, List.map_map]
  apply List.map_congr_left
  intro e _
  by_cases h : e.1 = k <;> simp [h]

theorem togglePlugin_togglePlugin (p : Plugin) : togglePlugin (togglePlugin p) = p := by
  cases p
  simp [togglePlugin]

/-- Unfolding of the toggle handler on a known plugin name. -/
theorem adminToggleHandler_some (sys : Sys) (name : String) (p : Plugin)
    (hp : lookupA sys.store.plugins name = some p) :
    adminToggleHandler sys name
      = ({ status := 200, headers := [("Content-Type", "application/json")],
           body := jsonEncode (.obj [("enabled", .bool (togglePlugin p).Enabled),
             ("message", .str ("Plugin " ++ name ++ " "
               ++ (if (togglePlugin p).Enabled then "enabled" else "disabled")))]) ++ "\n" },
         { store :=
             { config := sys.store.config,
               plugins := updateAssoc sys.store.plugins name (togglePlugin p),
               files := savePlugin sys.store.files name (togglePlugin p) },
           routerField := SetupRoutes sys.store.config
             (updateAssoc sys.store.plugins name (togglePlugin p)),
           served := sys.served }) := by
  rw [adminToggleHandler, hp]
  rfl

/-- C6: toggling a stored plugin twice returns its enablement flag to
the original value and restores the plugin map, so the dispatch table
compiled after the second toggle is exactly the table compiled from
the original store; disabling an enabled plugin and rebuilding removes
every route labelled with that plugin from the compiled table. -/
theorem claim_C6_toggle_pairs (sys : Sys) (name : String) (p : Plugin)
    (hnod : (sys.store.plugins.map Prod.fst).Nodup)
    (hp : lookupA sys.store.plugins name = some p)
    (hmain : name ≠ "main") :
    lookupA (adminToggleHandler sys name).2.store.plugins name = some (togglePlugin p)
    ∧ lookupA (adminToggleHandler (adminToggleHandler sys name).2 name).2.store.plugins name
        = some p
    ∧ (adminToggleHandler (adminToggleHandler sys name).2 name).2.store.plugins
        = sys.store.plugins
    ∧ (adminToggleHandler (adminToggleHandler sys name).2 name).2.routerField
        = SetupRoutes sys.store.config sys.store.plugins
    ∧ (p.Enabled = true →
        ∀ r ∈ (adminToggleHandler sys name).2.routerField, routeSource r ≠ some name) := by
  have hplugins1 : (adminToggleHandler sys name).2.store.plugins
      = updateAssoc sys.store.plugins name (togglePlugin p) := by
    rw [adminToggleHandler_some sys name p hp]
  have hconfig1 : (adminToggleHandler sys name).2.store.config = sys.store.config := by
    rw [adminToggleHandler_some sys name p hp]
  have hrouter1 : (adminToggleHandler sys name).2.routerField
      = SetupRoutes sys.store.config (updateAssoc sys.store.plugins name (togglePlugin p)) := by
    rw [adminToggleHandler_some sys name p hp]
  have hp1 : lookupA (adminToggleHandler sys name).2.store.plugins name
      = some (togglePlugin p) := by
    rw [hplugins1, lookupA_updateAssoc, if_pos rfl, hp]
    rfl
  have hplugins2 : (adminToggleHandler (adminToggleHandler sys name).2 name).2.store.plugins
      = sys.store.plugins := by
    rw [adminToggleHandler_some (adminToggleHandler sys name).2 name (togglePlugin p) hp1]
    rw [hplugins1, updateAssoc_updateAssoc, togglePlugin_togglePlugin]
    exact updateAssoc_self sys.store.plugins name p hnod hp
  refine ⟨hp1, ?_, hplugins2, ?_, ?_⟩
  · rw [hplugins2, hp]
  · rw [adminToggleHandler_some (adminToggleHandler sys name).2 name (togglePlugin p) hp1]
    rw [hconfig1, hplugins1, updateAssoc_updateAssoc, togglePlugin_togglePlugin]
    rw [updateAssoc_self sys.store.plugins name p hnod hp]
  · intro hen r hr
    rw [hrouter1, mem_SetupRoutes] at hr
    rcases hr with hr | hr | ⟨ep, _, hr⟩ | hr
    · rw [managementRoutes] at hr
      simp only [List.mem_cons, List.not_mem_nil, or_false] at hr
      rcases hr with hr | hr | hr | hr <;> subst hr <;> intro hc <;> exact Option.noConfusion hc
    · subst hr
      intro hc
      exact Option.noConfusion hc
    · subst hr
      intro hc
      rw [show routeSource (addEndpoint ep "main") = some "main" from rfl] at hc
      exact hmain (Option.some.inj hc).symm
    · rw [mem_pluginRoutes] at hr
      obtain ⟨n, q, hmem, hqen, ep, _, hr⟩ := hr
      subst hr
      intro hc
      rw [show routeSource (addEndpoint ep n) = some n from rfl] at hc
      have hn : n = name := Option.some.inj hc
      subst hn
      rcases mem_updateAssoc sys.store.plugins n n (togglePlugin p) q hmem with h | h
      · have : q.Enabled = false := by
          rw [h.2, show (togglePlugin p).Enabled = !p.Enabled from rfl, hen]
          rfl
        rw [this] at hqen
        exact Bool.false_ne_true hqen
      · exact h.2 rfl

/-- Witness for C6 at a concrete store: the flag flips and flips back,
the store is restored, and after disabling no compiled route is
labelled with the plugin. -/
theorem claim_C6_toggle_pairs_witness :
    lookupA (adminToggleHandler c6Sys "p1").2.store.plugins "p1" = some (togglePlugin c6Plugin)
    ∧ (adminToggleHandler (adminToggleHandler c6Sys "p1").2 "p1").2.store.plugins
        = c6Sys.store.plugins
    ∧ ∀ r ∈ (adminToggleHandler c6Sys "p1").2.routerField, routeSource r ≠ some "p1" := by
  have h := claim_C6_toggle_pairs c6Sys "p1" c6Plugin (by decide) rfl (by decide)
  exact ⟨h.1, h.2.2.1, h.2.2.2.2 rfl⟩

/-- C7: during a plugin-directory scan, malformed `.json` files are
skipped without aborting the scan: the scan reports success, the
resulting bundle set is exactly the one obtained from the directory
with the malformed files removed, and (when the well-formed files have
pairwise distinct effective names) every well-formed `.json` file's
plugin is present in the bundle set under its effective name. -/
theorem claim_C7_malformed_skip (files : List (String × PFile))
    (hnod : (validJsonNames files).Nodup) :
    (LoadPlugins (some files)).2 = true
    ∧ (LoadPlugins (some files)).1
        = (LoadPlugins (some (files.filter (fun e => !skippedEntry e)))).1
    ∧ ∀ fname p, (fname, PFile.valid p) ∈ files → strEndsWith fname ".json" = true →
        lookupA (LoadPlugins (some files)).1 (effPlugin fname p).Name
          = some (effPlugin fname p) := by
  refine ⟨rfl, ?_, ?_⟩
  · show files.foldl loadStep []
      = (files.filter (fun e => !skippedEntry e)).foldl loadStep []
    exact foldl_loadStep_filter files []
  · intro fname p hmem hjson
    show lookupA (files.foldl loadStep []) (effPlugin fname p).Name = some (effPlugin fname p)
    rw [lookupA_foldl_loadStep files [] (effPlugin fname p).Name]
    rw [lastContrib_of_mem files fname p hnod hmem hjson]
    rfl

/-- Witness for C7: the scan of the concrete directory succeeds, skips
exactly the malformed file, and loads both well-formed plugins. -/
theorem claim_C7_malformed_skip_witness :
    (LoadPlugins (some c7Files)).2 = true
    ∧ (LoadPlugins (some c7Files)).1
        = (LoadPlugins (some (c7Files.filter (fun e => !skippedEntry e)))).1
    ∧ lookupA (LoadPlugins (some c7Files)).1 "a" = some (effPlugin "a.json" c7A)
    ∧ lookupA (LoadPlugins (some c7Files)).1 "pb" = some c7B := by
  have h := claim_C7_malformed_skip c7Files (by decide)
  refine ⟨h.1, h.2.1, ?_, ?_⟩
  · exact h.2.2 "a.json" c7A (List.mem_cons_self _ _) (by decide)
  · exact h.2.2 "b.json" c7B
      (List.mem_cons_of_mem _ (List.mem_cons_of_mem _ (List.mem_cons_self _ _))) (by decide)

/-- C8 amended: toggling an unknown plugin name fails with the 404
plugin-not-found response and changes nothing; a successful toggle
flips the enabled flag and durably writes the plugin's full updated
state to the file named after the plugin's map key,
`<pluginsDir>/<name>.json` — which is the originating file exactly when
the plugin's name equals its source file's base name. -/
theorem claim_C8_amended (sys : Sys) (name : String) :
    (lookupA sys.store.plugins name = none →
      adminToggleHandler sys name = (pluginNotFoundResponse, sys)
      ∧ pluginNotFoundResponse.status = 404)
    ∧ ∀ p, lookupA sys.store.plugins name = some p →
        (adminToggleHandler sys name).1.status = 200
        ∧ (adminToggleHandler sys name).2.store.files
            = savePlugin sys.store.files name (togglePlugin p)
        ∧ (togglePlugin p).Enabled = !p.Enabled
        ∧ ∀ l, sys.store.files = some l →
            readFile (adminToggleHandler sys name).2.store.files (name ++ ".json")
              = some (.valid (togglePlugin p)) := by
  constructor
  · intro h
    constructor
    · rw [adminToggleHandler, h]
    · rfl
  · intro p hp
    refine ⟨?_, ?_, rfl, ?_⟩
    · rw [adminToggleHandler_some sys name p hp]
    · rw [adminToggleHandler_some sys name p hp]
    · intro l hl
      rw [show (adminToggleHandler sys name).2.store.files
          = savePlugin sys.store.files name (togglePlugin p) from by
        rw [adminToggleHandler_some sys name p hp]]
      rw [hl]
      show lookupA (insertAssoc l (name ++ ".json") (.valid (togglePlugin p))) (name ++ ".json")
        = some (.valid (togglePlugin p))
      rw [lookupA_insertAssoc, if_pos rfl]

/-- C8 counterexample: the toggle succeeds, but the plugin's updated
state is written to `bar.json` (derived from the plugin's name), while
the originating file `foo.json` still holds the old state — the claim
that the write-back targets the plugin's originating file is false. -/
theorem claim_C8_counterexample :
    lookupA c8Sys.store.plugins "bar" = some c8Plugin
    ∧ (adminToggleHandler c8Sys "bar").1.status = 200
    ∧ readFile (adminToggleHandler c8Sys "bar").2.store.files "foo.json"
        = some (.valid c8Plugin)
    ∧ readFile (adminToggleHandler c8Sys "bar").2.store.files "bar.json"
        = some (.valid (togglePlugin c8Plugin))
    ∧ c8Plugin ≠ togglePlugin c8Plugin := by
  refine ⟨rfl, rfl, rfl, rfl, ?_⟩
  intro h
  have := congrArg Plugin.Enabled h
  exact absurd this (by decide)

/-- Witness for the amended C8: toggling the known name writes
`bar.json`, and toggling an unknown name yields the 404 response. -/
theorem claim_C8_amended_witness :
    readFile (adminToggleHandler c8Sys "bar").2.store.files "bar.json"
        = some (.valid (togglePlugin c8Plugin))
    ∧ adminToggleHandler c8Sys "unknown" = (pluginNotFoundResponse, c8Sys) := by
  constructor
  · exact ((claim_C8_amended c8Sys "bar").2 c8Plugin rfl).2.2.2
      [("foo.json", .valid c8Plugin)] rfl
  · exact ((claim_C8_amended c8Sys "unknown").1 rfl).1

/-- C9: when the plugins directory does not exist, the scan clears the
bundle set and still reports success; the reload handler responds 200
with "Plugins reloaded successfully", and the rebuilt table holds no
plugin routes — every endpoint route in it is labelled "main". -/
theorem claim_C9_missing_dir (sys : Sys) (h : sys.store.files = none) :
    LoadPlugins sys.store.files = ([], true)
    ∧ (adminReloadHandler sys).2.store.plugins = []
    ∧ (adminReloadHandler sys).1.status = 200
    ∧ (adminReloadHandler sys).1.body
        = "\x7b\"message\":\"Plugins reloaded successfully\"\x7d\n"
    ∧ ∀ r ∈ (adminReloadHandler sys).2.routerField,
        ∀ s, routeSource r = some s → s = "main" := by
  rcases sys with ⟨⟨cfg, pl, files⟩, rf, sv⟩
  have h2 : files = none := h
  subst h2
  refine ⟨rfl, rfl, rfl, rfl, ?_⟩
  intro r hr s hs
  have hr2 : r ∈ SetupRoutes cfg [] := hr
  rw [mem_SetupRoutes] at hr2
  rcases hr2 with hm | hh | ⟨ep, _, he⟩ | hp
  · simp only [managementRoutes, List.mem_cons, List.not_mem_nil, or_false] at hm
    rcases hm with h1 | h1 | h1 | h1 <;> subst h1 <;> exact Option.noConfusion hs
  · subst hh
    exact Option.noConfusion hs
  · subst he
    have h3 : some "main" = some s := hs
    exact (Option.some_inj.mp h3).symm
  · exact absurd hp (List.not_mem_nil r)

/-- Witness for C9 at a concrete server with a missing plugins
directory. -/
theorem claim_C9_missing_dir_witness :
    (adminReloadHandler c9Sys).1.body
      = "\x7b\"message\":\"Plugins reloaded successfully\"\x7d\n"
    ∧ (adminReloadHandler c9Sys).2.store.plugins = [] :=
  ⟨(claim_C9_missing_dir c9Sys rfl).2.2.2.1, (claim_C9_missing_dir c9Sys rfl).2.1⟩

/-- C1 is false of the code: `Start` passes the initial `router` value
to `ListenAndServe`, and every rebuild assigns a fresh router to the
`ms.router` field without installing it into the running listener.
After toggling plugin `p1` to disabled, the store and the rebuilt
`router` field both reflect the disablement — the rebuilt table has no
route for `POST /plugin/test` — yet the very next request to
`POST /plugin/test` is still served by the stale captured table with
the plugin's declared 201 response, indefinitely. -/
theorem claim_C1_stale_table :
    (serveRequest c1Sys0 { method := "POST", path := "/_admin/plugins/p1/toggle" }).1.status = 200
    ∧ lookupA c1Sys1.store.plugins "p1" = some (togglePlugin c1Plugin)
    ∧ (togglePlugin c1Plugin).Enabled = false
    ∧ c1Sys1.routerField
        = SetupRoutes { Endpoints := [] } [("p1", togglePlugin c1Plugin)]
    ∧ findRoute c1Sys1.routerField { method := "POST", path := "/plugin/test" } = none
    ∧ (serveRequest c1Sys1 { method := "POST", path := "/plugin/test" }).1.status = 201
    ∧ (serveRequest c1Sys1 { method := "POST", path := "/plugin/test" }).1.body
        = "\x7b\"message\":\"plugin\"\x7d\n"
    ∧ (serveRequest c1Sys1 { method := "POST", path := "/plugin/test" }).2.served
        = c1Sys1.served :=
  ⟨rfl, rfl, rfl, rfl, rfl, rfl, rfl, rfl⟩
